import Mathlib

/-!
# Inventory reservation store

A shallow embedding of `inventory.go` (package `inventory`) and theorems about it.

Modelling decisions, all taken from the source:

* Go's `int` is the 64-bit two's-complement integer: values are mathematical integers in
  `[minInt, maxInt]`, and `-=` wraps around (`subInt`).  Comparison `<` is the usual order.
* `products map[string]*Product` is an association list from keys to pointers; the first entry
  with a given key is the one the map holds for it.  A pointer is `none` (nil) or `some a`, the
  address of a `Product` record in memory.  Several keys may hold the same address.
* The state of the service is the map together with the memory its pointers refer to.  No
  method inserts or deletes a key; writes go through a pointer into memory.
* A method call is a function from the state before the call to the value returned and the
  state after it.  The mutex only serialises calls, so a serial execution is a composition of
  calls.
* Reading `.Stock` through a nil pointer is the run-time fault `Outcome.nilDereference`; it is
  not an `error` value returned to the caller.
-/

namespace Inventory

/-! ## Machine integers -/

/-- Least value of the 64-bit `int`. -/
def minInt : Int := -9223372036854775808

/-- Greatest value of the 64-bit `int`. -/
def maxInt : Int := 9223372036854775807

/-- Two's-complement reduction of a mathematical integer to the 64-bit `int` range. -/
def wrapInt (x : Int) : Int :=
  (x + 9223372036854775808) % 18446744073709551616 - 9223372036854775808

/-- Go's `a - b` on `int`: the difference, wrapped around on overflow. -/
def subInt (a b : Int) : Int := wrapInt (a - b)

/-! ## Data model -/

/-- The record `type Product struct { ID string; Name string; Stock int }`. -/
structure Product where
  ID : String
  Name : String
  Stock : Int
  deriving DecidableEq, Repr

/-- The record `type ReserveItem struct { ProductID string; Quantity int }`. -/
structure ReserveItem where
  ProductID : String
  Quantity : Int
  deriving DecidableEq, Repr

/-- A value of type `*Product`: `none` is nil, `some a` is the address of a record. -/
abbrev Ptr := Option Nat

/-- A value of type `map[string]*Product`. -/
abbrev ProductMap := List (String × Ptr)

/-- The memory holding the `Product` records that pointers refer to. -/
abbrev Memory := Nat → Product

/-- The struct `SafeInventoryService` with the memory behind its pointers; the field `mu`
carries no data. -/
structure SafeInventoryService where
  products : ProductMap
  mem : Memory

/-- What a call of `Reserve` or `ReserveMultiple` does: `success` is `return nil`, the two `Err`
values are the package's error variables, `nilDereference` is the run-time fault raised by
`.Stock` on a nil pointer. -/
inductive Outcome where
  | success
  | ErrProductNotFound
  | ErrInsufficientStock
  | nilDereference
  deriving DecidableEq, Repr

/-- The two-value index expression `v, ok := m[key]`: `none` when `ok` is false. -/
def lookup : ProductMap → String → Option Ptr
  | [], _ => none
  | (k, v) :: rest, key => if k = key then some v else lookup rest key

/-- The single-value index expression `m[key]`: a missing key yields the zero value, nil. -/
def index (m : ProductMap) (key : String) : Ptr :=
  match lookup m key with
  | none => none
  | some v => v

/-- The assignment `p.Stock = stock` through the non-nil pointer `p` with address `a`. -/
def setStock (mem : Memory) (a : Nat) (stock : Int) : Memory :=
  fun b => if b = a then { mem a with Stock := stock } else mem b

/-! ## Operations -/

/-- The constructor `NewSafeInventoryService`; `none` is the nil map. -/
def NewSafeInventoryService (products : Option ProductMap) (mem : Memory) :
    SafeInventoryService :=
  match products with
  | none => { products := [], mem := mem }
  | some m => { products := m, mem := mem }

/-- The method `GetStock`. -/
def GetStock (s : SafeInventoryService) (productID : String) : Int × SafeInventoryService :=
  match index s.products productID with
  | none => (0, s)
  | some a => ((s.mem a).Stock, s)

/-- The method `Reserve`. -/
def Reserve (s : SafeInventoryService) (productID : String) (quantity : Int) :
    Outcome × SafeInventoryService :=
  match lookup s.products productID with
  | none => (Outcome.ErrProductNotFound, s)
  | some none => (Outcome.nilDereference, s)
  | some (some a) =>
    if (s.mem a).Stock < quantity then (Outcome.ErrInsufficientStock, s)
    else
      (Outcome.success, { s with mem := setStock s.mem a (subInt (s.mem a).Stock quantity) })

/-- First loop of `ReserveMultiple`: `none` when the loop runs to its end, otherwise the way the
call ends inside the loop.  The loop reads the state and writes nothing. -/
def validateAll (s : SafeInventoryService) : List ReserveItem → Option Outcome
  | [] => none
  | item :: rest =>
    match lookup s.products item.ProductID with
    | none => some Outcome.ErrProductNotFound
    | some none => some Outcome.nilDereference
    | some (some a) =>
      if (s.mem a).Stock < item.Quantity then some Outcome.ErrInsufficientStock
      else validateAll s rest

/-- Second loop of `ReserveMultiple`, followed by `return nil`.  A fault leaves the state as the
iterations already run have made it. -/
def reserveAll (s : SafeInventoryService) : List ReserveItem → Outcome × SafeInventoryService
  | [] => (Outcome.success, s)
  | item :: rest =>
    match index s.products item.ProductID with
    | none => (Outcome.nilDereference, s)
    | some a =>
      reserveAll { s with mem := setStock s.mem a (subInt (s.mem a).Stock item.Quantity) } rest

/-- The method `ReserveMultiple`. -/
def ReserveMultiple (s : SafeInventoryService) (items : List ReserveItem) :
    Outcome × SafeInventoryService :=
  match validateAll s items with
  | some out => (out, s)
  | none => reserveAll s items

/-! ## Serial executions -/

/-- A call of one of the three methods, with its arguments. -/
inductive Call where
  | getStock (productID : String)
  | reserve (productID : String) (quantity : Int)
  | reserveMultiple (items : List ReserveItem)
  deriving DecidableEq, Repr

/-- What a call hands back: the `int` of `GetStock` or the outcome of a reservation. -/
inductive Reply where
  | stock (n : Int)
  | outcome (o : Outcome)
  deriving DecidableEq, Repr

/-- One call run to completion on the state. -/
def perform (s : SafeInventoryService) : Call → Reply × SafeInventoryService
  | Call.getStock productID =>
    match GetStock s productID with
    | (n, s1) => (Reply.stock n, s1)
  | Call.reserve productID quantity =>
    match Reserve s productID quantity with
    | (o, s1) => (Reply.outcome o, s1)
  | Call.reserveMultiple items =>
    match ReserveMultiple s items with
    | (o, s1) => (Reply.outcome o, s1)

/-- The calls run one after another, each on the state left by the one before: the replies in
order and the final state.  A faulting call is recorded and the run goes on, as when every
caller recovers from the fault. -/
def performAll (s : SafeInventoryService) : List Call → List Reply × SafeInventoryService
  | [] => ([], s)
  | c :: cs =>
    match perform s c with
    | (r, s1) =>
      match performAll s1 cs with
      | (rs, s2) => (r :: rs, s2)

/-- The call writes to the state (`Reserve`, `ReserveMultiple`) rather than only reading it. -/
def Call.isWrite : Call → Bool
  | Call.getStock _ => false
  | _ => true

/-- The reply comes from a reservation. -/
def Reply.isOutcome : Reply → Bool
  | Reply.stock _ => false
  | Reply.outcome _ => true

/-! ## Notions used to state the claims -/

/-- Every record the map refers to has a non-negative stock. -/
def NonNegStock (s : SafeInventoryService) : Prop :=
  ∀ key, ∀ a ∈ index s.products key, 0 ≤ (s.mem a).Stock

/-- The addresses of the records the items refer to, in list order (items whose key is missing
or holds nil refer to no record). -/
def namedRecords (s : SafeInventoryService) (items : List ReserveItem) : List Nat :=
  items.filterMap (fun item => index s.products item.ProductID)

/-- The call is regular in the state: no difference `stock - quantity` it may compute exceeds
`maxInt`, and a `ReserveMultiple` refers to no record through two of its items. -/
def Call.Regular (s : SafeInventoryService) : Call → Prop
  | Call.getStock _ => True
  | Call.reserve productID quantity =>
    ∀ a ∈ index s.products productID, (s.mem a).Stock - quantity ≤ maxInt
  | Call.reserveMultiple items =>
    (namedRecords s items).Nodup ∧
      ∀ item ∈ items, ∀ a ∈ index s.products item.ProductID,
        (s.mem a).Stock - item.Quantity ≤ maxInt

instance (s : SafeInventoryService) (c : Call) : Decidable (Call.Regular s c) := by
  cases c <;> unfold Call.Regular <;> exact inferInstance

/-- Every call of the run is regular in the state it is performed in. -/
def RegularRun (s : SafeInventoryService) : List Call → Prop
  | [] => True
  | c :: cs => Call.Regular s c ∧ RegularRun (perform s c).2 cs

/-- The item fails the check of the validation loop in the state: its key is missing from the
map, or holds a record whose stock is below the item's quantity. -/
def FailsCheck (s : SafeInventoryService) (item : ReserveItem) : Prop :=
  lookup s.products item.ProductID = none ∨
    ∃ a, lookup s.products item.ProductID = some (some a) ∧ (s.mem a).Stock < item.Quantity

/-- A schedule of `TestGetStock_ConcurrentWithWrites`: the writer's call and the reader's call
take turns, `n` times each. -/
def alternate (w r : Call) : Nat → List Call
  | 0 => []
  | n + 1 => w :: r :: alternate w r n

/-- The sum of the quantities of the items of the list that refer to the record at address
`a`. -/
def reservedFrom (s : SafeInventoryService) (items : List ReserveItem) (a : Nat) : Int :=
  ((items.filter (fun item => index s.products item.ProductID = some a)).map
    ReserveItem.Quantity).sum

/-- The calls `Reserve(id, q)`, one for each item `(id, q)` of the list, in list order. -/
def reserveEach (items : List ReserveItem) : List Call :=
  items.map (fun item => Call.reserve item.ProductID item.Quantity)

/-- The item passes the check of the validation loop in the state: its key holds a record
whose stock is at least the item's quantity. -/
def PassesCheck (s : SafeInventoryService) (item : ReserveItem) : Prop :=
  ∃ a, lookup s.products item.ProductID = some (some a) ∧ item.Quantity ≤ (s.mem a).Stock

/-! ## States used by the package's tests -/

/-- A memory with the given records at addresses `0, 1, ...` and zero-valued records elsewhere. -/
def memoryOf (records : List Product) : Memory :=
  fun a => records.getD a { ID := "", Name := "", Stock := 0 }

/-- The service of `TestReserveMultiple_Atomicity`: product A with stock 10, B with stock 5. -/
def atomicityService : SafeInventoryService :=
  NewSafeInventoryService (some [("A", some 0), ("B", some 1)])
    (memoryOf [{ ID := "A", Name := "Product A", Stock := 10 },
      { ID := "B", Name := "Product B", Stock := 5 }])

/-- A service with the single product `prod-1` of the given stock, as built by
`TestReserve_ConcurrentOversell` and `TestGetStock_ConcurrentWithWrites`. -/
def singleService (stock : Int) : SafeInventoryService :=
  NewSafeInventoryService (some [("prod-1", some 0)])
    (memoryOf [{ ID := "prod-1", Name := "Test Product", Stock := stock }])

/-- A service whose map holds a nil pointer under the key `x`. -/
def nilEntryService : SafeInventoryService :=
  NewSafeInventoryService (some [("x", none)]) (memoryOf [])

/-- A service whose keys `A` and `B` hold the same pointer, to a record with stock 10. -/
def sharedRecordService : SafeInventoryService :=
  NewSafeInventoryService (some [("A", some 0), ("B", some 0)])
    (memoryOf [{ ID := "A", Name := "Product A", Stock := 10 }])

/-! ## Basic facts -/

theorem wrapInt_eq_self {x : Int} (h1 : minInt ≤ x) (h2 : x ≤ maxInt) : wrapInt x = x := by
  unfold minInt at h1
  unfold maxInt at h2
  unfold wrapInt
  omega

theorem wrapInt_wrapInt_sub (x q : Int) : wrapInt (wrapInt x - q) = wrapInt (x - q) := by
  unfold wrapInt
  omega

theorem index_eq_some {m : ProductMap} {key : String} {a : Nat} :
    index m key = some a ↔ lookup m key = some (some a) := by
  unfold index
  cases h : lookup m key with
  | none => simp
  | some v => simp

theorem reserveAll_products (items : List ReserveItem) (s : SafeInventoryService) :
    (reserveAll s items).2.products = s.products := by
  induction items generalizing s with
  | nil => rfl
  | cons item rest ih =>
    unfold reserveAll
    cases h : index s.products item.ProductID with
    | none => rfl
    | some a => simp only [ih]

theorem reserveAll_outcome (items : List ReserveItem) (s : SafeInventoryService) :
    (reserveAll s items).1 = Outcome.success ∨
      (reserveAll s items).1 = Outcome.nilDereference := by
  induction items generalizing s with
  | nil => exact Or.inl rfl
  | cons item rest ih =>
    unfold reserveAll
    cases h : index s.products item.ProductID with
    | none => exact Or.inr rfl
    | some a => exact ih _

/-- The validation loop runs to its end exactly when every item names a key holding a record
whose stock, in the state on entry, is at least the item's quantity. -/
theorem validateAll_eq_none_iff (s : SafeInventoryService) (items : List ReserveItem) :
    validateAll s items = none ↔
      ∀ item ∈ items, ∃ a, lookup s.products item.ProductID = some (some a) ∧
        item.Quantity ≤ (s.mem a).Stock := by
  induction items with
  | nil => simp [validateAll]
  | cons item rest ih =>
    unfold validateAll
    cases h : lookup s.products item.ProductID with
    | none => simp [h]
    | some v =>
      cases v with
      | none => simp [h]
      | some a =>
        by_cases hlt : (s.mem a).Stock < item.Quantity
        · simp [h, hlt]
        · simp [h, hlt, ih, not_lt.mp hlt]

/-- The apply loop ends with `return nil` when every item names a key holding a record. -/
theorem reserveAll_success (items : List ReserveItem) (s : SafeInventoryService)
    (h : ∀ item ∈ items, ∃ a, lookup s.products item.ProductID = some (some a)) :
    (reserveAll s items).1 = Outcome.success := by
  induction items generalizing s with
  | nil => rfl
  | cons item rest ih =>
    obtain ⟨a, ha⟩ := h item (List.mem_cons_self _ _)
    unfold reserveAll
    rw [index_eq_some.mpr ha]
    exact ih _ (fun it hit => h it (List.mem_cons_of_mem _ hit))

/-! ## Claims -/

/-- C1. All-or-nothing on failure: whenever `ReserveMultiple` returns `ErrProductNotFound` or
`ErrInsufficientStock`, the state after the call is the state before it, map and memory alike,
whichever item failed and however many earlier items had passed validation. -/
theorem ReserveMultiple_error_leaves_state (s : SafeInventoryService) (items : List ReserveItem)
    (h : (ReserveMultiple s items).1 = Outcome.ErrProductNotFound ∨
      (ReserveMultiple s items).1 = Outcome.ErrInsufficientStock) :
    (ReserveMultiple s items).2 = s := by
  unfold ReserveMultiple at h ⊢
  cases hv : validateAll s items with
  | some out => rfl
  | none =>
    rw [hv] at h
    simp only at h
    rcases reserveAll_outcome items s with h1 | h1 <;> rw [h1] at h <;> simp at h

/-- Witness for C1 on the state of `TestReserveMultiple_Atomicity`: the request `[A:8, B:8]`
returns `ErrInsufficientStock`, the state is unchanged, and `GetStock` still reports 10 for A and
5 for B. -/
theorem ReserveMultiple_error_leaves_state_witness :
    (ReserveMultiple atomicityService [⟨"A", 8⟩, ⟨"B", 8⟩]).1 = Outcome.ErrInsufficientStock ∧
      (ReserveMultiple atomicityService [⟨"A", 8⟩, ⟨"B", 8⟩]).2 = atomicityService ∧
      (GetStock (ReserveMultiple atomicityService [⟨"A", 8⟩, ⟨"B", 8⟩]).2 "A").1 = 10 ∧
      (GetStock (ReserveMultiple atomicityService [⟨"A", 8⟩, ⟨"B", 8⟩]).2 "B").1 = 5 :=
  ⟨by decide,
    ReserveMultiple_error_leaves_state atomicityService [⟨"A", 8⟩, ⟨"B", 8⟩] (Or.inr (by decide)),
    by decide, by decide⟩

/-! ### Non-negative stock -/

theorem NonNegStock_of_entries {s : SafeInventoryService}
    (h : ∀ e ∈ s.products, ∀ a ∈ e.2, 0 ≤ (s.mem a).Stock) : NonNegStock s := by
  intro key a ha
  have hl : lookup s.products key = some (some a) := index_eq_some.mp ha
  have hmem : ∀ (m : ProductMap), lookup m key = some (some a) → (key, some a) ∈ m := by
    intro m
    induction m with
    | nil => intro hm; simp [lookup] at hm
    | cons e rest ih =>
      obtain ⟨k, v⟩ := e
      intro hm
      unfold lookup at hm
      by_cases hk : k = key
      · simp only [hk, if_true, Option.some.injEq] at hm
        simp [hk, hm]
      · simp only [hk, if_false] at hm
        exact List.mem_cons_of_mem _ (ih hm)
  exact h _ (hmem _ hl) a rfl

theorem NonNegStock_setStock {s : SafeInventoryService} (h : NonNegStock s) (a : Nat)
    (v : Int) (hv : 0 ≤ v) : NonNegStock { s with mem := setStock s.mem a v } := by
  intro key b hb
  show 0 ≤ (setStock s.mem a v b).Stock
  unfold setStock
  by_cases hba : b = a
  · simp [hba, hv]
  · simp only [hba, if_false]
    exact h key b hb

theorem subInt_eq_sub {x q : Int} (h1 : q ≤ x) (h2 : x - q ≤ maxInt) : subInt x q = x - q := by
  unfold subInt
  apply wrapInt_eq_self _ h2
  unfold minInt
  omega

theorem Reserve_nonNegStock {s : SafeInventoryService} (h : NonNegStock s) (productID : String)
    (quantity : Int) (hr : Call.Regular s (Call.reserve productID quantity)) :
    NonNegStock (Reserve s productID quantity).2 := by
  unfold Reserve
  cases hl : lookup s.products productID with
  | none => exact h
  | some v =>
    cases v with
    | none => exact h
    | some a =>
      by_cases hlt : (s.mem a).Stock < quantity
      · simp only [hlt, if_true]; exact h
      · simp only [hlt, if_false]
        have hfit : (s.mem a).Stock - quantity ≤ maxInt := hr a (index_eq_some.mpr hl)
        rw [subInt_eq_sub (not_lt.mp hlt) hfit]
        exact NonNegStock_setStock h a _ (by omega)

theorem reserveAll_nonNegStock (items : List ReserveItem) (s : SafeInventoryService)
    (h : NonNegStock s) (hnd : (namedRecords s items).Nodup)
    (hit : ∀ item ∈ items, ∀ a ∈ index s.products item.ProductID,
      item.Quantity ≤ (s.mem a).Stock ∧ (s.mem a).Stock - item.Quantity ≤ maxInt) :
    NonNegStock (reserveAll s items).2 := by
  induction items generalizing s with
  | nil => exact h
  | cons item rest ih =>
    unfold reserveAll
    cases hx : index s.products item.ProductID with
    | none => exact h
    | some a =>
      simp only
      obtain ⟨hq, hfit⟩ := hit item (List.mem_cons_self _ _) a hx
      rw [subInt_eq_sub hq hfit]
      have hnd2 : a ∉ namedRecords s rest ∧ (namedRecords s rest).Nodup := by
        have := hnd
        unfold namedRecords at this ⊢
        rw [List.filterMap_cons, hx] at this
        exact List.nodup_cons.mp this
      apply ih _ (NonNegStock_setStock h a _ (by omega)) hnd2.2
      intro it hmem b hb
      have hb2 : index s.products it.ProductID = some b := hb
      have hne : b ≠ a := by
        intro hba
        apply hnd2.1
        unfold namedRecords
        rw [List.mem_filterMap]
        exact ⟨it, hmem, hba ▸ hb2⟩
      show it.Quantity ≤ (setStock s.mem a _ b).Stock ∧
        (setStock s.mem a _ b).Stock - it.Quantity ≤ maxInt
      unfold setStock
      simp only [hne, if_false]
      exact hit it (List.mem_cons_of_mem _ hmem) b hb2

theorem ReserveMultiple_nonNegStock {s : SafeInventoryService} (h : NonNegStock s)
    (items : List ReserveItem) (hr : Call.Regular s (Call.reserveMultiple items)) :
    NonNegStock (ReserveMultiple s items).2 := by
  unfold ReserveMultiple
  cases hv : validateAll s items with
  | some out => exact h
  | none =>
    apply reserveAll_nonNegStock items s h hr.1
    intro item hmem a ha
    obtain ⟨b, hb, hq⟩ := (validateAll_eq_none_iff s items).mp hv item hmem
    have hab : a = b := by
      have := index_eq_some.mp ha
      rw [hb] at this
      simpa using this.symm
    subst hab
    exact ⟨hq, hr.2 item hmem a ha⟩

theorem GetStock_snd (s : SafeInventoryService) (productID : String) :
    (GetStock s productID).2 = s := by
  unfold GetStock
  cases index s.products productID <;> rfl

theorem perform_getStock (s : SafeInventoryService) (productID : String) :
    perform s (Call.getStock productID) =
      (Reply.stock (GetStock s productID).1, (GetStock s productID).2) := rfl

theorem perform_reserve (s : SafeInventoryService) (productID : String) (quantity : Int) :
    perform s (Call.reserve productID quantity) =
      (Reply.outcome (Reserve s productID quantity).1, (Reserve s productID quantity).2) := rfl

theorem perform_reserveMultiple (s : SafeInventoryService) (items : List ReserveItem) :
    perform s (Call.reserveMultiple items) =
      (Reply.outcome (ReserveMultiple s items).1, (ReserveMultiple s items).2) := rfl

theorem perform_nonNegStock {s : SafeInventoryService} (h : NonNegStock s) (c : Call)
    (hr : Call.Regular s c) : NonNegStock (perform s c).2 := by
  cases c with
  | getStock productID => rw [perform_getStock, GetStock_snd]; exact h
  | reserve productID quantity => exact Reserve_nonNegStock h productID quantity hr
  | reserveMultiple items => exact ReserveMultiple_nonNegStock h items hr

theorem performAll_snd_cons (s : SafeInventoryService) (c : Call) (cs : List Call) :
    (performAll s (c :: cs)).2 = (performAll (perform s c).2 cs).2 := rfl

theorem performAll_fst_cons (s : SafeInventoryService) (c : Call) (cs : List Call) :
    (performAll s (c :: cs)).1 = (perform s c).1 :: (performAll (perform s c).2 cs).1 := rfl

/-- C2 (counterexample). Non-negative stock is not preserved by every call.  On the state with
A = 10 the request `[A:8, A:8]` passes validation item by item and leaves A at -6; on a state
whose single product has stock `maxInt`, `Reserve` with quantity -1 passes the check and the
subtraction wraps around to `minInt`. -/
theorem NonNegStock_not_preserved :
    (NonNegStock atomicityService ∧
      (ReserveMultiple atomicityService [⟨"A", 8⟩, ⟨"A", 8⟩]).1 = Outcome.success ∧
      (GetStock (ReserveMultiple atomicityService [⟨"A", 8⟩, ⟨"A", 8⟩]).2 "A").1 = -6 ∧
      ¬ NonNegStock (ReserveMultiple atomicityService [⟨"A", 8⟩, ⟨"A", 8⟩]).2) ∧
    (NonNegStock (singleService maxInt) ∧
      (Reserve (singleService maxInt) "prod-1" (-1)).1 = Outcome.success ∧
      (GetStock (Reserve (singleService maxInt) "prod-1" (-1)).2 "prod-1").1 = minInt ∧
      ¬ NonNegStock (Reserve (singleService maxInt) "prod-1" (-1)).2) := by
  refine ⟨⟨NonNegStock_of_entries (by decide), by decide, by decide, ?_⟩,
    ⟨NonNegStock_of_entries (by decide), by decide, by decide, ?_⟩⟩
  · intro h
    exact absurd (h "A" 0 (by decide)) (by decide)
  · intro h
    exact absurd (h "prod-1" 0 (by decide)) (by decide)

/-- C2 (amended). Non-negative stock is an invariant of regular calls: from a state in which
every product's stock is at least 0, any serial run of `GetStock`, `Reserve` and
`ReserveMultiple` calls with arbitrary keys and quantities, in which no subtraction exceeds
`maxInt` and no `ReserveMultiple` refers to one record through two items, ends in a state in
which every product's stock is at least 0.  A run of one call is the single-call case. -/
theorem NonNegStock_invariant (s : SafeInventoryService) (calls : List Call)
    (h : NonNegStock s) (hr : RegularRun s calls) : NonNegStock (performAll s calls).2 := by
  induction calls generalizing s with
  | nil => exact h
  | cons c cs ih =>
    rw [performAll_snd_cons]
    exact ih _ (perform_nonNegStock h c hr.1) hr.2

/-- Witness for C2 (amended): on the state with A = 10 and B = 5, the run `Reserve(A, 3)`,
`ReserveMultiple([A:2, B:5])`, `GetStock(B)`, `Reserve(B, 1)`, `Reserve(A, -4)` is regular and
ends with every stock at least 0. -/
theorem NonNegStock_invariant_witness :
    NonNegStock atomicityService ∧
      RegularRun atomicityService
        [Call.reserve "A" 3, Call.reserveMultiple [⟨"A", 2⟩, ⟨"B", 5⟩], Call.getStock "B",
          Call.reserve "B" 1, Call.reserve "A" (-4)] ∧
      NonNegStock (performAll atomicityService
        [Call.reserve "A" 3, Call.reserveMultiple [⟨"A", 2⟩, ⟨"B", 5⟩], Call.getStock "B",
          Call.reserve "B" 1, Call.reserve "A" (-4)]).2 :=
  have h0 : NonNegStock atomicityService := NonNegStock_of_entries (by decide)
  have hr : RegularRun atomicityService
      [Call.reserve "A" 3, Call.reserveMultiple [⟨"A", 2⟩, ⟨"B", 5⟩], Call.getStock "B",
        Call.reserve "B" 1, Call.reserve "A" (-4)] := by
    refine ⟨by decide, by decide, by decide, by decide, by decide, trivial⟩
  ⟨h0, hr, NonNegStock_invariant atomicityService _ h0 hr⟩

/-! ### Serial runs -/

theorem performAll_append (s : SafeInventoryService) (xs ys : List Call) :
    performAll s (xs ++ ys) =
      ((performAll s xs).1 ++ (performAll (performAll s xs).2 ys).1,
        (performAll (performAll s xs).2 ys).2) := by
  induction xs generalizing s with
  | nil => rfl
  | cons c cs ih =>
    have h1 : performAll s (c :: cs ++ ys) =
        ((perform s c).1 :: (performAll (perform s c).2 (cs ++ ys)).1,
          (performAll (perform s c).2 (cs ++ ys)).2) := rfl
    rw [h1, ih, performAll_fst_cons, performAll_snd_cons]
    rfl

/-- A call that leaves the state as it found it gives the same reply however often it is
repeated, and the state stays put. -/
theorem performAll_replicate_of_fixed {s : SafeInventoryService} {c : Call} {r : Reply}
    (h : perform s c = (r, s)) (n : Nat) :
    performAll s (List.replicate n c) = (List.replicate n r, s) := by
  induction n with
  | zero => rfl
  | succ n ih =>
    have h1 : performAll s (List.replicate (n + 1) c) =
        ((perform s c).1 :: (performAll (perform s c).2 (List.replicate n c)).1,
          (performAll (perform s c).2 (List.replicate n c)).2) := rfl
    rw [h1, h]
    simp only [ih, List.replicate_succ]

/-- Repeated single-unit reservations on a product with enough stock all succeed and take
one unit each. -/
theorem performAll_replicate_reserve_one (productID : String) (a : Nat) (k : Int) (hk : 0 ≤ k)
    (n : Nat) (s : SafeInventoryService)
    (hp : lookup s.products productID = some (some a))
    (hs : (s.mem a).Stock = k + n) (hmax : k + n ≤ maxInt) :
    (performAll s (List.replicate n (Call.reserve productID 1))).1 =
        List.replicate n (Reply.outcome Outcome.success) ∧
      (performAll s (List.replicate n (Call.reserve productID 1))).2.products = s.products ∧
      ((performAll s (List.replicate n (Call.reserve productID 1))).2.mem a).Stock = k := by
  induction n generalizing s with
  | zero => exact ⟨rfl, rfl, by simpa using hs⟩
  | succ n ih =>
    have hge : ¬ (s.mem a).Stock < 1 := by rw [hs]; push_cast; omega
    have hstep : Reserve s productID 1 =
        (Outcome.success, { s with mem := setStock s.mem a (subInt (s.mem a).Stock 1) }) := by
      unfold Reserve
      rw [hp]
      simp only [hge, if_false]
    have hsub : subInt (s.mem a).Stock 1 = k + n := by
      rw [subInt_eq_sub (by omega) (by rw [hs]; push_cast at hmax ⊢; omega), hs]
      push_cast
      omega
    have hrun : performAll s (List.replicate (n + 1) (Call.reserve productID 1)) =
        ((perform s (Call.reserve productID 1)).1 ::
            (performAll (perform s (Call.reserve productID 1)).2
              (List.replicate n (Call.reserve productID 1))).1,
          (performAll (perform s (Call.reserve productID 1)).2
            (List.replicate n (Call.reserve productID 1))).2) := rfl
    rw [hrun, perform_reserve, hstep, hsub]
    have hs2 : (({ s with mem := setStock s.mem a (k + n) } : SafeInventoryService).mem a).Stock
        = k + n := by
      simp [setStock]
    have hmax2 : k + (n : Int) ≤ maxInt := by push_cast at hmax; omega
    obtain ⟨h1, h2, h3⟩ := ih { s with mem := setStock s.mem a (k + n) } hp hs2 hmax2
    refine ⟨?_, h2, h3⟩
    simp only [h1, List.replicate_succ]

/-- C3. No oversell: on a state where product `p` has stock `N` (a non-negative `int`), `M ≥ N`
calls `Reserve(p, 1)` run one after another give exactly `N` successes and exactly `M - N`
failures with `ErrInsufficientStock`, and `GetStock(p)` is 0 afterwards. -/
theorem Reserve_no_oversell (s : SafeInventoryService) (p : String) (a : Nat) (N M : Nat)
    (hp : lookup s.products p = some (some a)) (hN : (s.mem a).Stock = N)
    (hmax : (N : Int) ≤ maxInt) (hM : N ≤ M) :
    ((performAll s (List.replicate M (Call.reserve p 1))).1.count
        (Reply.outcome Outcome.success) = N) ∧
      ((performAll s (List.replicate M (Call.reserve p 1))).1.count
        (Reply.outcome Outcome.ErrInsufficientStock) = M - N) ∧
      (GetStock (performAll s (List.replicate M (Call.reserve p 1))).2 p).1 = 0 := by
  obtain ⟨h1, h2, h3⟩ :=
    performAll_replicate_reserve_one p a 0 (le_refl 0) N s hp (by simpa using hN)
      (by simpa using hmax)
  have hfail : perform (performAll s (List.replicate N (Call.reserve p 1))).2
      (Call.reserve p 1) =
      (Reply.outcome Outcome.ErrInsufficientStock,
        (performAll s (List.replicate N (Call.reserve p 1))).2) := by
    rw [perform_reserve]
    unfold Reserve
    rw [h2, hp]
    simp [h3]
  have hsplit : List.replicate M (Call.reserve p 1) =
      List.replicate N (Call.reserve p 1) ++ List.replicate (M - N) (Call.reserve p 1) := by
    rw [← List.replicate_add]
    congr 1
    omega
  rw [hsplit, performAll_append, performAll_replicate_of_fixed hfail, h1]
  refine ⟨?_, ?_, ?_⟩
  · simp [List.count_append, List.count_replicate]
  · simp [List.count_append, List.count_replicate]
  · unfold GetStock
    rw [h2, index_eq_some.mpr hp]
    exact h3

/-- Witness for C3, the setting of `TestReserve_ConcurrentOversell`: stock 100 and 200 calls
`Reserve("prod-1", 1)` give 100 successes, 100 `ErrInsufficientStock` failures and final stock
0. -/
theorem Reserve_no_oversell_witness :
    ((performAll (singleService 100) (List.replicate 200 (Call.reserve "prod-1" 1))).1.count
        (Reply.outcome Outcome.success) = 100) ∧
      ((performAll (singleService 100) (List.replicate 200 (Call.reserve "prod-1" 1))).1.count
        (Reply.outcome Outcome.ErrInsufficientStock) = 100) ∧
      (GetStock (performAll (singleService 100)
        (List.replicate 200 (Call.reserve "prod-1" 1))).2 "prod-1").1 = 0 :=
  Reserve_no_oversell (singleService 100) "prod-1" 0 100 200 (by decide) (by decide)
    (by decide) (by decide)

/-! ### Single-item reservation -/

/-- C4 (counterexample). The outcome of `Reserve` is not one of the three the claim lists for
every state: when the key `x` is in the map and holds a nil pointer, `Reserve("x", 1)` neither
returns `ErrProductNotFound` or `ErrInsufficientStock` nor succeeds; reading `.Stock` faults. -/
theorem Reserve_nil_entry_faults :
    lookup nilEntryService.products "x" ≠ none ∧
      (Reserve nilEntryService "x" 1).1 ≠ Outcome.ErrProductNotFound ∧
      (Reserve nilEntryService "x" 1).1 ≠ Outcome.ErrInsufficientStock ∧
      (Reserve nilEntryService "x" 1).1 ≠ Outcome.success ∧
      (Reserve nilEntryService "x" 1).1 = Outcome.nilDereference := by
  decide

/-- C4 (amended). The outcome of `Reserve` is determined by the state: it returns
`ErrProductNotFound` exactly when the key is not in the map, `ErrInsufficientStock` exactly when
the key holds a record whose stock is strictly less than the quantity, succeeds exactly when the
key holds a record whose stock is at least the quantity, and faults exactly in the remaining
case, a key holding the nil pointer.  Whenever the call does not succeed, the state after it is
the state before it. -/
theorem Reserve_outcome (s : SafeInventoryService) (productID : String) (quantity : Int) :
    ((Reserve s productID quantity).1 = Outcome.ErrProductNotFound ↔
        lookup s.products productID = none) ∧
      ((Reserve s productID quantity).1 = Outcome.ErrInsufficientStock ↔
        ∃ a, lookup s.products productID = some (some a) ∧ (s.mem a).Stock < quantity) ∧
      ((Reserve s productID quantity).1 = Outcome.success ↔
        ∃ a, lookup s.products productID = some (some a) ∧ quantity ≤ (s.mem a).Stock) ∧
      ((Reserve s productID quantity).1 = Outcome.nilDereference ↔
        lookup s.products productID = some none) ∧
      ((Reserve s productID quantity).1 ≠ Outcome.success →
        (Reserve s productID quantity).2 = s) := by
  unfold Reserve
  cases hl : lookup s.products productID with
  | none => simp
  | some v =>
    cases v with
    | none => simp
    | some a =>
      by_cases hlt : (s.mem a).Stock < quantity
      · simp [hlt]
      · simp [hlt, not_lt.mp hlt]

/-- Witness for C4 (amended) on the state with A = 10 and B = 5: `Reserve("B", 8)` does not
succeed, returns `ErrInsufficientStock`, and leaves the state as it was. -/
theorem Reserve_outcome_witness :
    (Reserve atomicityService "B" 8).1 ≠ Outcome.success ∧
      (Reserve atomicityService "B" 8).1 = Outcome.ErrInsufficientStock ∧
      (Reserve atomicityService "B" 8).2 = atomicityService :=
  ⟨by decide,
    (Reserve_outcome atomicityService "B" 8).2.1.mpr ⟨1, by decide, by decide⟩,
    (Reserve_outcome atomicityService "B" 8).2.2.2.2 (by decide)⟩

/-- C5 (counterexample). A successful `Reserve` does not always leave exactly `s - q`: with
stock `maxInt` and quantity -1 the key is present and `s ≥ q`, the call succeeds, and the
wrapping subtraction leaves `minInt`, which is not `maxInt - (-1)`. -/
theorem Reserve_success_wraps :
    lookup (singleService maxInt).products "prod-1" = some (some 0) ∧
      (-1 : Int) ≤ ((singleService maxInt).mem 0).Stock ∧
      (Reserve (singleService maxInt) "prod-1" (-1)).1 = Outcome.success ∧
      ((Reserve (singleService maxInt) "prod-1" (-1)).2.mem 0).Stock = minInt ∧
      ((Reserve (singleService maxInt) "prod-1" (-1)).2.mem 0).Stock ≠
        ((singleService maxInt).mem 0).Stock - (-1) := by
  decide

/-- C5 (amended). Effect of a successful `Reserve`: when the key holds a record with stock `s`
and `s ≥ q`, the call succeeds and the key still holds the same record, with `ID` and `Name` as
before.  Its stock is now exactly the integer `s - q` whenever `s - q` does not exceed `maxInt`,
as is always the case for `q ≥ 0`; when `s - q` exceeds `maxInt` (for `int` values `s` and `q`)
it is `s - q - 2^64`.  Every other record is unchanged, as is the map, so `GetStock` of a key
holding any other record returns what it returned before. -/
theorem Reserve_success_effect (s : SafeInventoryService) (productID : String) (a : Nat)
    (quantity : Int) (hp : lookup s.products productID = some (some a))
    (hq : quantity ≤ (s.mem a).Stock) :
    (Reserve s productID quantity).1 = Outcome.success ∧
      lookup (Reserve s productID quantity).2.products productID = some (some a) ∧
      ((Reserve s productID quantity).2.mem a).ID = (s.mem a).ID ∧
      ((Reserve s productID quantity).2.mem a).Name = (s.mem a).Name ∧
      ((s.mem a).Stock - quantity ≤ maxInt →
        ((Reserve s productID quantity).2.mem a).Stock = (s.mem a).Stock - quantity) ∧
      (0 ≤ quantity → (s.mem a).Stock ≤ maxInt →
        ((Reserve s productID quantity).2.mem a).Stock = (s.mem a).Stock - quantity) ∧
      (maxInt < (s.mem a).Stock - quantity → (s.mem a).Stock ≤ maxInt → minInt ≤ quantity →
        ((Reserve s productID quantity).2.mem a).Stock =
          (s.mem a).Stock - quantity - 18446744073709551616) ∧
      (∀ b, b ≠ a → (Reserve s productID quantity).2.mem b = s.mem b) ∧
      (Reserve s productID quantity).2.products = s.products ∧
      (∀ key, index s.products key ≠ some a →
        (GetStock (Reserve s productID quantity).2 key).1 = (GetStock s key).1) := by
  have hge : ¬ (s.mem a).Stock < quantity := not_lt.mpr hq
  have hstep : Reserve s productID quantity =
      (Outcome.success,
        { s with mem := setStock s.mem a (subInt (s.mem a).Stock quantity) }) := by
    unfold Reserve
    rw [hp]
    simp only [hge, if_false]
  rw [hstep]
  refine ⟨rfl, hp, ?_, ?_, ?_, ?_, ?_, ?_, rfl, ?_⟩
  · simp [setStock]
  · simp [setStock]
  · intro hfit
    simp [setStock, subInt_eq_sub hq hfit]
  · intro h0 hmax
    have hfit : (s.mem a).Stock - quantity ≤ maxInt := by omega
    simp [setStock, subInt_eq_sub hq hfit]
  · intro hover hmax hmin
    have hsub : subInt (s.mem a).Stock quantity =
        (s.mem a).Stock - quantity - 18446744073709551616 := by
      unfold subInt wrapInt
      unfold maxInt at hmax hover
      unfold minInt at hmin
      omega
    simp [setStock, hsub]
  · intro b hb
    simp [setStock, hb]
  · intro key hkey
    unfold GetStock
    cases hx : index s.products key with
    | none => rfl
    | some b =>
      have hb : b ≠ a := by
        intro hba
        apply hkey
        rw [hx, hba]
      simp [setStock, hb]

/-- Witness for C5 (amended) on the state with A = 10 and B = 5: `Reserve("A", 3)` succeeds,
A's stock becomes 7 and `GetStock("B")` is still 5. -/
theorem Reserve_success_effect_witness :
    (Reserve atomicityService "A" 3).1 = Outcome.success ∧
      ((Reserve atomicityService "A" 3).2.mem 0).Stock = 7 ∧
      (GetStock (Reserve atomicityService "A" 3).2 "B").1 = 5 :=
  have h := Reserve_success_effect atomicityService "A" 0 3 (by decide) (by decide)
  ⟨h.1, h.2.2.2.2.1 (by decide), (h.2.2.2.2.2.2.2.2.2 "B" (by decide)).trans (by decide)⟩

/-! ### Multi-item reservation -/

theorem validateAll_ne_success (s : SafeInventoryService) (items : List ReserveItem) :
    validateAll s items ≠ some Outcome.success := by
  induction items with
  | nil => simp [validateAll]
  | cons item rest ih =>
    unfold validateAll
    cases hl : lookup s.products item.ProductID with
    | none => simp
    | some v =>
      cases v with
      | none => simp
      | some a =>
        by_cases hlt : (s.mem a).Stock < item.Quantity
        · simp [hlt]
        · simpa [hlt] using ih

/-- A successful `ReserveMultiple` has run its validation loop to the end. -/
theorem validateAll_eq_none_of_success {s : SafeInventoryService} {items : List ReserveItem}
    (h : (ReserveMultiple s items).1 = Outcome.success) : validateAll s items = none := by
  unfold ReserveMultiple at h
  cases hv : validateAll s items with
  | none => rfl
  | some out =>
    rw [hv] at h
    simp only at h
    rw [h] at hv
    exact absurd hv (validateAll_ne_success s items)

theorem ReserveMultiple_eq_reserveAll {s : SafeInventoryService} {items : List ReserveItem}
    (h : validateAll s items = none) : ReserveMultiple s items = reserveAll s items := by
  unfold ReserveMultiple
  rw [h]

theorem namedRecords_cons (s : SafeInventoryService) (item : ReserveItem)
    (rest : List ReserveItem) :
    namedRecords s (item :: rest) =
      match index s.products item.ProductID with
      | none => namedRecords s rest
      | some a => a :: namedRecords s rest := by
  unfold namedRecords
  rw [List.filterMap_cons]
  cases index s.products item.ProductID <;> rfl

theorem namedRecords_setStock (s : SafeInventoryService) (a : Nat) (v : Int)
    (items : List ReserveItem) :
    namedRecords { s with mem := setStock s.mem a v } items = namedRecords s items := rfl

/-- The apply loop leaves alone every record that no item refers to. -/
theorem reserveAll_mem_of_not_named (items : List ReserveItem) (s : SafeInventoryService)
    (a : Nat) (h : a ∉ namedRecords s items) : (reserveAll s items).2.mem a = s.mem a := by
  induction items generalizing s with
  | nil => rfl
  | cons item rest ih =>
    unfold reserveAll
    rw [namedRecords_cons] at h
    cases hx : index s.products item.ProductID with
    | none => rfl
    | some b =>
      rw [hx] at h
      simp only [List.mem_cons, not_or] at h
      simp only
      rw [ih _ (by rw [namedRecords_setStock]; exact h.2)]
      simp [setStock, h.1]

/-- The apply loop subtracts the quantity of an item from the record it refers to, once, when
no other item refers to that record and every item refers to some record. -/
theorem reserveAll_mem_of_named_once (items : List ReserveItem) (s : SafeInventoryService)
    (a : Nat) (item : ReserveItem) (hmem : item ∈ items)
    (ha : index s.products item.ProductID = some a)
    (hall : ∀ it ∈ items, ∃ b, index s.products it.ProductID = some b)
    (hone : (namedRecords s items).count a = 1) :
    (reserveAll s items).2.mem a =
      { s.mem a with Stock := subInt (s.mem a).Stock item.Quantity } := by
  induction items generalizing s with
  | nil => simp at hmem
  | cons hd tl ih =>
    unfold reserveAll
    rw [namedRecords_cons] at hone
    obtain ⟨b, hx⟩ := hall hd (List.mem_cons_self _ _)
    rw [hx] at hone
    simp only [hx] at hone ⊢
    by_cases hba : b = a
    · subst hba
      rw [List.count_cons_self] at hone
      have hnot : b ∉ namedRecords s tl := by
        intro hin
        have := List.count_pos_iff.mpr hin
        omega
      have hhd : item = hd := by
        rcases List.mem_cons.mp hmem with h | h
        · exact h
        · exfalso
          apply hnot
          unfold namedRecords
          rw [List.mem_filterMap]
          exact ⟨item, h, ha⟩
      rw [reserveAll_mem_of_not_named tl _ b (by rw [namedRecords_setStock]; exact hnot)]
      simp [setStock, hhd]
    · rw [List.count_cons_of_ne (Ne.symm hba)] at hone
      have hne : item ≠ hd := by
        intro h
        rw [h, hx] at ha
        exact hba (Option.some.inj ha)
      have hmem2 : item ∈ tl := by
        rcases List.mem_cons.mp hmem with h | h
        · exact absurd h hne
        · exact h
      rw [ih { s with mem := setStock s.mem b (subInt (s.mem b).Stock hd.Quantity) } hmem2 ha
        (fun it hit => hall it (List.mem_cons_of_mem _ hit))
        (by rw [namedRecords_setStock]; exact hone)]
      have hab : a ≠ b := Ne.symm hba
      simp [setStock, hab]

/-- Items that pass their check are stepped over by the validation loop. -/
theorem validateAll_append_of_pass (s : SafeInventoryService) (pre rest : List ReserveItem)
    (h : ∀ it ∈ pre, ∃ a, lookup s.products it.ProductID = some (some a) ∧
      it.Quantity ≤ (s.mem a).Stock) :
    validateAll s (pre ++ rest) = validateAll s rest := by
  induction pre with
  | nil => rfl
  | cons hd tl ih =>
    obtain ⟨a, ha, hq⟩ := h hd (List.mem_cons_self _ _)
    have hge : ¬ (s.mem a).Stock < hd.Quantity := not_lt.mpr hq
    rw [List.cons_append]
    simp only [validateAll, ha, hge, if_false]
    exact ih (fun it hit => h it (List.mem_cons_of_mem _ hit))

/-- C6 (counterexample). A successful `ReserveMultiple` does not take exactly `q` from the
product of every item `(id, q)`: on the state with A = 10 the request `[A:3, A:3]` succeeds, the
item `(A, 3)` is in the list, and A's stock afterwards is 4, not 10 - 3. -/
theorem ReserveMultiple_duplicate_item_effect :
    (ReserveMultiple atomicityService [⟨"A", 3⟩, ⟨"A", 3⟩]).1 = Outcome.success ∧
      (⟨"A", 3⟩ : ReserveItem) ∈ [(⟨"A", 3⟩ : ReserveItem), ⟨"A", 3⟩] ∧
      (GetStock atomicityService "A").1 = 10 ∧
      (GetStock (ReserveMultiple atomicityService [⟨"A", 3⟩, ⟨"A", 3⟩]).2 "A").1 = 4 ∧
      (GetStock (ReserveMultiple atomicityService [⟨"A", 3⟩, ⟨"A", 3⟩]).2 "A").1 ≠
        subInt (GetStock atomicityService "A").1 3 ∧
      (GetStock (ReserveMultiple atomicityService [⟨"A", 3⟩, ⟨"A", 3⟩]).2 "A").1 ≠
        (GetStock atomicityService "A").1 - 3 := by
  decide

/-- C6 (amended). A successful `ReserveMultiple` commits every item whose product no other item
of the list refers to: for such an item `(id, q)`, the key `id` holds the same record after the
call, and its stock after the call is Go's difference of its stock before the call and `q` (the
integer difference whenever that does not exceed `maxInt`); `ID` and `Name` are as before. -/
theorem ReserveMultiple_commits_item (s : SafeInventoryService) (items : List ReserveItem)
    (hs : (ReserveMultiple s items).1 = Outcome.success) (item : ReserveItem)
    (hmem : item ∈ items) (a : Nat) (ha : lookup s.products item.ProductID = some (some a))
    (hone : (namedRecords s items).count a = 1) :
    lookup (ReserveMultiple s items).2.products item.ProductID = some (some a) ∧
      (ReserveMultiple s items).2.mem a =
        { s.mem a with Stock := subInt (s.mem a).Stock item.Quantity } ∧
      ((s.mem a).Stock - item.Quantity ≤ maxInt →
        ((ReserveMultiple s items).2.mem a).Stock = (s.mem a).Stock - item.Quantity) := by
  have hv : validateAll s items = none := validateAll_eq_none_of_success hs
  have hpass := (validateAll_eq_none_iff s items).mp hv
  have hall : ∀ it ∈ items, ∃ b, index s.products it.ProductID = some b := by
    intro it hit
    obtain ⟨b, hb, _⟩ := hpass it hit
    exact ⟨b, index_eq_some.mpr hb⟩
  rw [ReserveMultiple_eq_reserveAll hv, reserveAll_products,
    reserveAll_mem_of_named_once items s a item hmem (index_eq_some.mpr ha) hall hone]
  refine ⟨ha, rfl, ?_⟩
  intro hfit
  obtain ⟨b, hb, hq⟩ := hpass item hmem
  have hab : b = a := by
    rw [ha] at hb
    simpa using hb.symm
  subst hab
  exact subInt_eq_sub hq hfit

/-- Witness for C6 (amended) on the state with A = 10 and B = 5: the request `[A:8, B:5]`
succeeds and leaves A at 2. -/
theorem ReserveMultiple_commits_item_witness :
    (ReserveMultiple atomicityService [⟨"A", 8⟩, ⟨"B", 5⟩]).1 = Outcome.success ∧
      ((ReserveMultiple atomicityService [⟨"A", 8⟩, ⟨"B", 5⟩]).2.mem 0).Stock = 2 :=
  ⟨by decide,
    (ReserveMultiple_commits_item atomicityService [⟨"A", 8⟩, ⟨"B", 5⟩] (by decide) ⟨"A", 8⟩
      (by decide) 0 (by decide) (by decide)).2.2 (by decide)⟩

/-- C7. `ReserveMultiple` validates every item on its own against the stock on entry: the call
succeeds exactly when every item of the list names a key holding a record whose stock before
the call is at least the item's quantity.  The condition looks at one item at a time, so the
quantities of several items naming one product are not added up. -/
theorem ReserveMultiple_success_iff (s : SafeInventoryService) (items : List ReserveItem) :
    (ReserveMultiple s items).1 = Outcome.success ↔
      ∀ item ∈ items, ∃ a, lookup s.products item.ProductID = some (some a) ∧
        item.Quantity ≤ (s.mem a).Stock := by
  constructor
  · intro hs
    exact (validateAll_eq_none_iff s items).mp (validateAll_eq_none_of_success hs)
  · intro hpass
    have hv : validateAll s items = none := (validateAll_eq_none_iff s items).mpr hpass
    rw [ReserveMultiple_eq_reserveAll hv]
    apply reserveAll_success
    intro item hmem
    obtain ⟨a, ha, _⟩ := hpass item hmem
    exact ⟨a, ha⟩

/-- C8 (counterexample). The first item that fails its check does not always decide what
`ReserveMultiple` does: when the key `x` holds a nil pointer and the key `y` is missing, the
first item of `[x:1, y:1]` does not fail its check, the second fails it with a missing key, and
the call faults on the first item: it returns neither `ErrProductNotFound` nor
`ErrInsufficientStock`. -/
theorem ReserveMultiple_nil_entry_before_failure :
    (∀ it ∈ [(⟨"x", 1⟩ : ReserveItem)], ¬ FailsCheck nilEntryService it) ∧
      FailsCheck nilEntryService ⟨"y", 1⟩ ∧
      lookup nilEntryService.products "y" = none ∧
      (ReserveMultiple nilEntryService [⟨"x", 1⟩, ⟨"y", 1⟩]).1 ≠ Outcome.ErrProductNotFound ∧
      (ReserveMultiple nilEntryService [⟨"x", 1⟩, ⟨"y", 1⟩]).1 ≠ Outcome.ErrInsufficientStock ∧
      (ReserveMultiple nilEntryService [⟨"x", 1⟩, ⟨"y", 1⟩]).1 = Outcome.nilDereference := by
  refine ⟨?_, Or.inl (by decide), by decide, by decide, by decide, by decide⟩
  intro it hit
  rw [List.mem_singleton] at hit
  subst hit
  have hx : lookup nilEntryService.products "x" = some none := by decide
  rintro (h | ⟨a, h, _⟩)
  · rw [hx] at h
    exact absurd h (by simp)
  · rw [hx] at h
    exact absurd h (by simp)

/-- C8 (amended). The error returned by `ReserveMultiple` is that of the first failing item in
list order, provided no earlier item names a key holding a nil pointer: if the items before
item `i` neither fail their check nor name such a key, and item `i` fails its check, the call
returns `ErrProductNotFound` when the key of item `i` is missing and `ErrInsufficientStock` when
it holds a record with stock below the quantity, whatever the later items are. -/
theorem ReserveMultiple_first_failure (s : SafeInventoryService) (pre post : List ReserveItem)
    (item : ReserveItem) (hpre : ∀ it ∈ pre, ¬ FailsCheck s it)
    (hnil : ∀ it ∈ pre, lookup s.products it.ProductID ≠ some none)
    (hfail : FailsCheck s item) :
    (lookup s.products item.ProductID = none →
        (ReserveMultiple s (pre ++ item :: post)).1 = Outcome.ErrProductNotFound) ∧
      ((∃ a, lookup s.products item.ProductID = some (some a) ∧
          (s.mem a).Stock < item.Quantity) →
        (ReserveMultiple s (pre ++ item :: post)).1 = Outcome.ErrInsufficientStock) ∧
      ((ReserveMultiple s (pre ++ item :: post)).1 = Outcome.ErrProductNotFound ∨
        (ReserveMultiple s (pre ++ item :: post)).1 = Outcome.ErrInsufficientStock) := by
  have hpass : ∀ it ∈ pre, ∃ a, lookup s.products it.ProductID = some (some a) ∧
      it.Quantity ≤ (s.mem a).Stock := by
    intro it hit
    cases hl : lookup s.products it.ProductID with
    | none => exact absurd (Or.inl hl) (hpre it hit)
    | some v =>
      cases v with
      | none => exact absurd hl (hnil it hit)
      | some a =>
        refine ⟨a, rfl, ?_⟩
        by_contra hlt
        exact hpre it hit (Or.inr ⟨a, hl, not_le.mp hlt⟩)
  have hv : validateAll s (pre ++ item :: post) = validateAll s (item :: post) :=
    validateAll_append_of_pass s pre (item :: post) hpass
  have hnone : lookup s.products item.ProductID = none →
      (ReserveMultiple s (pre ++ item :: post)).1 = Outcome.ErrProductNotFound := by
    intro hl
    unfold ReserveMultiple
    rw [hv]
    unfold validateAll
    rw [hl]
  have hlow : (∃ a, lookup s.products item.ProductID = some (some a) ∧
      (s.mem a).Stock < item.Quantity) →
      (ReserveMultiple s (pre ++ item :: post)).1 = Outcome.ErrInsufficientStock := by
    rintro ⟨a, hl, hlt⟩
    unfold ReserveMultiple
    rw [hv]
    unfold validateAll
    rw [hl]
    simp only [hlt, if_true]
  refine ⟨hnone, hlow, ?_⟩
  rcases hfail with h | h
  · exact Or.inl (hnone h)
  · exact Or.inr (hlow h)

/-- Witness for C8 (amended) on the state with A = 10 and B = 5: in `[A:8, B:8, C:1]` the first
failing item is `B:8`, short of stock, and the call returns `ErrInsufficientStock` although the
later item `C:1` names a missing key. -/
theorem ReserveMultiple_first_failure_witness :
    (∀ it ∈ [(⟨"A", 8⟩ : ReserveItem)], ¬ FailsCheck atomicityService it) ∧
      FailsCheck atomicityService ⟨"B", 8⟩ ∧
      (ReserveMultiple atomicityService ([⟨"A", 8⟩] ++ ⟨"B", 8⟩ :: [⟨"C", 1⟩])).1 =
        Outcome.ErrInsufficientStock :=
  have hA : lookup atomicityService.products "A" = some (some 0) := by decide
  have hpre : ∀ it ∈ [(⟨"A", 8⟩ : ReserveItem)], ¬ FailsCheck atomicityService it := by
    intro it hit
    rw [List.mem_singleton] at hit
    subst hit
    rintro (h | ⟨a, h, hlt⟩)
    · rw [hA] at h
      exact absurd h (by simp)
    · rw [hA] at h
      have ha : a = 0 := by simpa using h.symm
      subst ha
      exact absurd hlt (by decide)
  have hnil : ∀ it ∈ [(⟨"A", 8⟩ : ReserveItem)],
      lookup atomicityService.products it.ProductID ≠ some none := by
    intro it hit
    rw [List.mem_singleton] at hit
    subst hit
    decide
  have hfail : FailsCheck atomicityService ⟨"B", 8⟩ := Or.inr ⟨1, by decide, by decide⟩
  ⟨hpre, hfail,
    (ReserveMultiple_first_failure atomicityService [⟨"A", 8⟩] [⟨"C", 1⟩] ⟨"B", 8⟩ hpre hnil
      hfail).2.1 ⟨1, by decide, by decide⟩⟩

/-! ### Reads and repeated failures -/

theorem GetStock_fst_of_lookup {s : SafeInventoryService} {productID : String} {a : Nat}
    (h : lookup s.products productID = some (some a)) :
    (GetStock s productID).1 = (s.mem a).Stock := by
  unfold GetStock
  rw [index_eq_some.mpr h]

/-- Dropping the `GetStock` calls from a run drops their replies and changes nothing else. -/
theorem performAll_filter_isWrite (calls : List Call) (s : SafeInventoryService) :
    performAll s (calls.filter Call.isWrite) =
      ((performAll s calls).1.filter Reply.isOutcome, (performAll s calls).2) := by
  induction calls generalizing s with
  | nil => rfl
  | cons c cs ih =>
    cases c with
    | getStock productID =>
      have h1 : (Call.getStock productID :: cs).filter Call.isWrite = cs.filter Call.isWrite :=
        rfl
      rw [h1, performAll_fst_cons, performAll_snd_cons, perform_getStock, GetStock_snd, ih]
      rfl
    | reserve productID quantity =>
      have h1 : (Call.reserve productID quantity :: cs).filter Call.isWrite =
          Call.reserve productID quantity :: cs.filter Call.isWrite := rfl
      have h2 : performAll s (Call.reserve productID quantity :: cs.filter Call.isWrite) =
          ((perform s (Call.reserve productID quantity)).1 ::
            (performAll (perform s (Call.reserve productID quantity)).2
              (cs.filter Call.isWrite)).1,
            (performAll (perform s (Call.reserve productID quantity)).2
              (cs.filter Call.isWrite)).2) := rfl
      rw [h1, h2, ih, performAll_fst_cons, performAll_snd_cons]
      rfl
    | reserveMultiple items =>
      have h1 : (Call.reserveMultiple items :: cs).filter Call.isWrite =
          Call.reserveMultiple items :: cs.filter Call.isWrite := rfl
      have h2 : performAll s (Call.reserveMultiple items :: cs.filter Call.isWrite) =
          ((perform s (Call.reserveMultiple items)).1 ::
            (performAll (perform s (Call.reserveMultiple items)).2
              (cs.filter Call.isWrite)).1,
            (performAll (perform s (Call.reserveMultiple items)).2
              (cs.filter Call.isWrite)).2) := rfl
      rw [h1, h2, ih, performAll_fst_cons, performAll_snd_cons]
      rfl

theorem filter_isWrite_alternate (w r : Call) (hw : w.isWrite = true) (hr : r.isWrite = false)
    (n : Nat) : (alternate w r n).filter Call.isWrite = List.replicate n w := by
  induction n with
  | zero => rfl
  | succ n ih =>
    unfold alternate
    rw [List.filter_cons_of_pos hw, List.filter_cons_of_neg (by simp [hr]), ih,
      List.replicate_succ]

/-- C9. `GetStock` is a pure read: it leaves the state as it is; it returns the stored stock
when the key holds a record and 0 when the key is missing (and 0 as well when the key holds the
nil pointer); and removing the `GetStock` calls from any serial run of calls changes neither the
replies of the `Reserve` and `ReserveMultiple` calls nor the final state. -/
theorem GetStock_pure_read (s : SafeInventoryService) (productID : String) :
    (GetStock s productID).2 = s ∧
      (∀ a, lookup s.products productID = some (some a) →
        (GetStock s productID).1 = (s.mem a).Stock) ∧
      (lookup s.products productID = none → (GetStock s productID).1 = 0) ∧
      (lookup s.products productID = some none → (GetStock s productID).1 = 0) ∧
      (∀ calls : List Call,
        (performAll s (calls.filter Call.isWrite)).1 =
            (performAll s calls).1.filter Reply.isOutcome ∧
          (performAll s (calls.filter Call.isWrite)).2 = (performAll s calls).2) := by
  refine ⟨GetStock_snd s productID, ?_, ?_, ?_, ?_⟩
  · intro a ha
    unfold GetStock
    rw [index_eq_some.mpr ha]
  · intro h
    unfold GetStock index
    rw [h]
  · intro h
    unfold GetStock index
    rw [h]
  · intro calls
    rw [performAll_filter_isWrite]
    exact ⟨rfl, rfl⟩

/-- Witness for C9, the setting of `TestGetStock_ConcurrentWithWrites`: with stock 1000, the
run in which 500 calls `Reserve("prod-1", 1)` take turns with 500 calls `GetStock("prod-1")`
ends in the state that the 500 reservations alone produce, and `GetStock` then returns 500. -/
theorem GetStock_pure_read_witness :
    (performAll (singleService 1000)
        (alternate (Call.reserve "prod-1" 1) (Call.getStock "prod-1") 500)).2 =
      (performAll (singleService 1000) (List.replicate 500 (Call.reserve "prod-1" 1))).2 ∧
    (GetStock (performAll (singleService 1000)
        (alternate (Call.reserve "prod-1" 1) (Call.getStock "prod-1") 500)).2 "prod-1").1 =
      500 := by
  have hfilter := filter_isWrite_alternate (Call.reserve "prod-1" 1) (Call.getStock "prod-1")
    rfl rfl 500
  have hrun := ((GetStock_pure_read (singleService 1000) "prod-1").2.2.2.2
    (alternate (Call.reserve "prod-1" 1) (Call.getStock "prod-1") 500)).2
  rw [hfilter] at hrun
  have hp : lookup (singleService 1000).products "prod-1" = some (some 0) := by decide
  obtain ⟨_, h2, h3⟩ := performAll_replicate_reserve_one "prod-1" 0 500 (by decide) 500
    (singleService 1000) hp (by decide) (by decide)
  refine ⟨hrun.symm, ?_⟩
  rw [← hrun, GetStock_fst_of_lookup (h2.symm ▸ hp)]
  exact h3

/-- An error returned by `ReserveMultiple` is the one its validation loop ended with. -/
theorem validateAll_eq_some_of_error {s : SafeInventoryService} {items : List ReserveItem}
    {e : Outcome} (he : e = Outcome.ErrProductNotFound ∨ e = Outcome.ErrInsufficientStock)
    (h : (ReserveMultiple s items).1 = e) : validateAll s items = some e := by
  unfold ReserveMultiple at h
  cases hv : validateAll s items with
  | some out =>
    rw [hv] at h
    simp only at h
    rw [h]
  | none =>
    rw [hv] at h
    simp only at h
    rcases reserveAll_outcome items s with h1 | h1 <;> rcases he with he | he <;>
      · rw [h1, he] at h
        simp at h

/-- An error returned by `Reserve` comes with the state as it was. -/
theorem Reserve_eq_of_error {s : SafeInventoryService} {productID : String} {quantity : Int}
    {e : Outcome} (he : e = Outcome.ErrProductNotFound ∨ e = Outcome.ErrInsufficientStock)
    (h : (Reserve s productID quantity).1 = e) : Reserve s productID quantity = (e, s) := by
  unfold Reserve at h ⊢
  cases hl : lookup s.products productID with
  | none =>
    rw [hl] at h
    simp only at h ⊢
    rw [h]
  | some v =>
    cases v with
    | none =>
      rw [hl] at h
      simp only at h ⊢
      rw [h]
    | some a =>
      rw [hl] at h
      by_cases hlt : (s.mem a).Stock < quantity
      · simp only [hlt, if_true] at h ⊢
        rw [h]
      · simp only [hlt, if_false] at h
        rcases he with he | he <;>
          · rw [he] at h
            simp at h

/-- C10. Idempotent failure: when a call `Reserve(id, q)` or `ReserveMultiple(items)` returns
`ErrProductNotFound` or `ErrInsufficientStock`, repeating the same call any number of times
returns the same error every time, and the state after the repetitions is the state before the
first call, so every product's stock is what it was. -/
theorem failed_call_idempotent (s : SafeInventoryService) (c : Call) (e : Outcome)
    (he : e = Outcome.ErrProductNotFound ∨ e = Outcome.ErrInsufficientStock)
    (hc : (perform s c).1 = Reply.outcome e) (n : Nat) :
    (performAll s (List.replicate n c)).1 = List.replicate n (Reply.outcome e) ∧
      (performAll s (List.replicate n c)).2 = s ∧
      ∀ key, (GetStock (performAll s (List.replicate n c)).2 key).1 = (GetStock s key).1 := by
  have hfix : perform s c = (Reply.outcome e, s) := by
    cases c with
    | getStock productID =>
      rw [perform_getStock] at hc
      simp at hc
    | reserve productID quantity =>
      rw [perform_reserve] at hc ⊢
      have h1 : (Reserve s productID quantity).1 = e := by simpa using hc
      rw [Reserve_eq_of_error he h1]
    | reserveMultiple items =>
      rw [perform_reserveMultiple] at hc ⊢
      have h1 : (ReserveMultiple s items).1 = e := by simpa using hc
      have hv := validateAll_eq_some_of_error he h1
      unfold ReserveMultiple
      rw [hv]
  rw [performAll_replicate_of_fixed hfix n]
  exact ⟨rfl, rfl, fun _ => rfl⟩

/-- Witness for C10 on the state with A = 10 and B = 5: the failing request `[A:8, B:8]` made
three times returns `ErrInsufficientStock` three times and leaves the state as it was. -/
theorem failed_call_idempotent_witness :
    (perform atomicityService (Call.reserveMultiple [⟨"A", 8⟩, ⟨"B", 8⟩])).1 =
        Reply.outcome Outcome.ErrInsufficientStock ∧
      (performAll atomicityService
        (List.replicate 3 (Call.reserveMultiple [⟨"A", 8⟩, ⟨"B", 8⟩]))).1 =
        List.replicate 3 (Reply.outcome Outcome.ErrInsufficientStock) ∧
      (performAll atomicityService
        (List.replicate 3 (Call.reserveMultiple [⟨"A", 8⟩, ⟨"B", 8⟩]))).2 = atomicityService :=
  have h := failed_call_idempotent atomicityService
    (Call.reserveMultiple [⟨"A", 8⟩, ⟨"B", 8⟩]) Outcome.ErrInsufficientStock (Or.inr rfl)
    (by decide) 3
  ⟨by decide, h.1, h.2.1⟩

/-! ### Product set and identity -/

theorem setStock_ID_Name (mem : Memory) (a : Nat) (v : Int) (b : Nat) :
    (setStock mem a v b).ID = (mem b).ID ∧ (setStock mem a v b).Name = (mem b).Name := by
  unfold setStock
  by_cases hba : b = a
  · simp [hba]
  · simp [hba]

theorem reserveAll_ID_Name (items : List ReserveItem) (s : SafeInventoryService) (b : Nat) :
    ((reserveAll s items).2.mem b).ID = (s.mem b).ID ∧
      ((reserveAll s items).2.mem b).Name = (s.mem b).Name := by
  induction items generalizing s with
  | nil => exact ⟨rfl, rfl⟩
  | cons item rest ih =>
    unfold reserveAll
    cases hx : index s.products item.ProductID with
    | none => exact ⟨rfl, rfl⟩
    | some a =>
      simp only
      obtain ⟨h1, h2⟩ := ih { s with mem := setStock s.mem a (subInt (s.mem a).Stock item.Quantity) }
      obtain ⟨h3, h4⟩ := setStock_ID_Name s.mem a (subInt (s.mem a).Stock item.Quantity) b
      exact ⟨h1.trans h3, h2.trans h4⟩

theorem Reserve_products (s : SafeInventoryService) (productID : String) (quantity : Int) :
    (Reserve s productID quantity).2.products = s.products := by
  unfold Reserve
  cases hl : lookup s.products productID with
  | none => rfl
  | some v =>
    cases v with
    | none => rfl
    | some a => by_cases hlt : (s.mem a).Stock < quantity <;> simp [hlt]

theorem Reserve_ID_Name (s : SafeInventoryService) (productID : String) (quantity : Int)
    (b : Nat) :
    ((Reserve s productID quantity).2.mem b).ID = (s.mem b).ID ∧
      ((Reserve s productID quantity).2.mem b).Name = (s.mem b).Name := by
  unfold Reserve
  cases hl : lookup s.products productID with
  | none => exact ⟨rfl, rfl⟩
  | some v =>
    cases v with
    | none => exact ⟨rfl, rfl⟩
    | some a =>
      by_cases hlt : (s.mem a).Stock < quantity
      · simp [hlt]
      · simp only [hlt, if_false]
        exact setStock_ID_Name s.mem a _ b

theorem ReserveMultiple_products (s : SafeInventoryService) (items : List ReserveItem) :
    (ReserveMultiple s items).2.products = s.products := by
  unfold ReserveMultiple
  cases hv : validateAll s items with
  | some out => rfl
  | none => exact reserveAll_products items s

theorem ReserveMultiple_ID_Name (s : SafeInventoryService) (items : List ReserveItem)
    (b : Nat) :
    ((ReserveMultiple s items).2.mem b).ID = (s.mem b).ID ∧
      ((ReserveMultiple s items).2.mem b).Name = (s.mem b).Name := by
  unfold ReserveMultiple
  cases hv : validateAll s items with
  | some out => exact ⟨rfl, rfl⟩
  | none => exact reserveAll_ID_Name items s b

theorem perform_products (s : SafeInventoryService) (c : Call) :
    (perform s c).2.products = s.products := by
  cases c with
  | getStock productID => rw [perform_getStock, GetStock_snd]
  | reserve productID quantity => exact Reserve_products s productID quantity
  | reserveMultiple items => exact ReserveMultiple_products s items

theorem perform_ID_Name (s : SafeInventoryService) (c : Call) (b : Nat) :
    ((perform s c).2.mem b).ID = (s.mem b).ID ∧
      ((perform s c).2.mem b).Name = (s.mem b).Name := by
  cases c with
  | getStock productID => rw [perform_getStock, GetStock_snd]; exact ⟨rfl, rfl⟩
  | reserve productID quantity => exact Reserve_ID_Name s productID quantity b
  | reserveMultiple items => exact ReserveMultiple_ID_Name s items b

/-- C11. The product set and product identity are fixed after construction: a call of
`GetStock`, `Reserve` or `ReserveMultiple`, with any arguments and whether it succeeds, fails or
faults, leaves the map as it is, so the set of keys is the same and every key holds the same
pointer, and leaves the `ID` and `Name` of every record as they are: each record after the call
is the record before it with at most its `Stock` replaced.  The same holds after any serial run
of calls. -/
theorem product_identity_fixed (s : SafeInventoryService) (c : Call) (calls : List Call) :
    ((perform s c).2.products = s.products ∧
        (perform s c).2.products.map Prod.fst = s.products.map Prod.fst ∧
        ∀ a, ((perform s c).2.mem a).ID = (s.mem a).ID ∧
          ((perform s c).2.mem a).Name = (s.mem a).Name ∧
          (perform s c).2.mem a = { s.mem a with Stock := ((perform s c).2.mem a).Stock }) ∧
      ((performAll s calls).2.products = s.products ∧
        ∀ a, ((performAll s calls).2.mem a).ID = (s.mem a).ID ∧
          ((performAll s calls).2.mem a).Name = (s.mem a).Name) := by
  refine ⟨⟨perform_products s c, by rw [perform_products s c], ?_⟩, ?_⟩
  · intro a
    obtain ⟨h1, h2⟩ := perform_ID_Name s c a
    refine ⟨h1, h2, ?_⟩
    cases hrec : (perform s c).2.mem a with
    | mk i n st =>
      rw [hrec] at h1 h2
      simp only at h1 h2
      subst h1 h2
      rfl
  · induction calls generalizing s with
    | nil => exact ⟨rfl, fun _ => ⟨rfl, rfl⟩⟩
    | cons d ds ih =>
      rw [performAll_snd_cons]
      obtain ⟨hp, hm⟩ := ih (perform s d).2
      refine ⟨hp.trans (perform_products s d), ?_⟩
      intro a
      obtain ⟨h1, h2⟩ := hm a
      obtain ⟨h3, h4⟩ := perform_ID_Name s d a
      exact ⟨h1.trans h3, h2.trans h4⟩

/-! ### Duplicates and non-positive quantities -/

/-- C13. Duplicate-product gap: there are a state with non-negative stocks and a request naming
one product twice, each quantity at most the product's stock and the two together above it, on
which `ReserveMultiple` succeeds and takes both quantities from the product.  The state with
A = 10 and the request `[A:8, A:8]` are such: A ends at 10 - 8 - 8 = -6. -/
theorem ReserveMultiple_duplicate_gap :
    ∃ (s : SafeInventoryService) (productID : String) (a : Nat) (q1 q2 : Int),
      NonNegStock s ∧ lookup s.products productID = some (some a) ∧
        q1 ≤ (s.mem a).Stock ∧ q2 ≤ (s.mem a).Stock ∧ (s.mem a).Stock < q1 + q2 ∧
        (ReserveMultiple s [⟨productID, q1⟩, ⟨productID, q2⟩]).1 = Outcome.success ∧
        ((ReserveMultiple s [⟨productID, q1⟩, ⟨productID, q2⟩]).2.mem a).Stock =
          (s.mem a).Stock - q1 - q2 ∧
        (GetStock (ReserveMultiple s [⟨productID, q1⟩, ⟨productID, q2⟩]).2 productID).1 =
          -6 :=
  ⟨atomicityService, "A", 0, 8, 8, NonNegStock_of_entries (by decide), by decide, by decide,
    by decide, by decide, by decide, by decide, by decide⟩

theorem setStock_self (mem : Memory) (a : Nat) : setStock mem a (mem a).Stock = mem := by
  funext b
  unfold setStock
  by_cases hba : b = a
  · simp [hba]
  · simp [hba]

/-- C14 (counterexample). A negative quantity does not always raise the stock: with stock
`maxInt` (which is at least 0) and quantity -1, `Reserve` succeeds and the wrapping subtraction
leaves `minInt`, which is not greater than the stock before. -/
theorem Reserve_negative_quantity_wraps :
    0 ≤ (GetStock (singleService maxInt) "prod-1").1 ∧
      (Reserve (singleService maxInt) "prod-1" (-1)).1 = Outcome.success ∧
      (GetStock (Reserve (singleService maxInt) "prod-1" (-1)).2 "prod-1").1 = minInt ∧
      ¬ ((GetStock (singleService maxInt) "prod-1").1 <
        (GetStock (Reserve (singleService maxInt) "prod-1" (-1)).2 "prod-1").1) := by
  decide

/-- C14 (amended). Non-positive quantities are accepted, with `int` the 64-bit integer and
wrapping subtraction: when the key holds a record with stock `s`, `0 ≤ s`, then for every
negative `int` quantity `q` the call succeeds; the resulting stock is `s - q`, strictly greater
than `s`, whenever `s - q` does not exceed `maxInt`, and is `s - q - 2^64`, a negative number,
when it does.  For `q = 0` the call succeeds and leaves the state as it was. -/
theorem Reserve_nonpositive_quantity (s : SafeInventoryService) (productID : String) (a : Nat)
    (quantity : Int) (hp : lookup s.products productID = some (some a))
    (h0 : 0 ≤ (s.mem a).Stock) (hmax : (s.mem a).Stock ≤ maxInt) (hq : minInt ≤ quantity) :
    (quantity < 0 →
        (Reserve s productID quantity).1 = Outcome.success ∧
        ((s.mem a).Stock - quantity ≤ maxInt →
          ((Reserve s productID quantity).2.mem a).Stock = (s.mem a).Stock - quantity ∧
            (s.mem a).Stock < ((Reserve s productID quantity).2.mem a).Stock) ∧
        (maxInt < (s.mem a).Stock - quantity →
          ((Reserve s productID quantity).2.mem a).Stock =
              (s.mem a).Stock - quantity - 18446744073709551616 ∧
            ((Reserve s productID quantity).2.mem a).Stock < 0)) ∧
      (quantity = 0 → Reserve s productID quantity = (Outcome.success, s)) := by
  have hstep : ¬ (s.mem a).Stock < quantity →
      Reserve s productID quantity =
        (Outcome.success,
          { s with mem := setStock s.mem a (subInt (s.mem a).Stock quantity) }) := by
    intro hge
    unfold Reserve
    rw [hp]
    simp only [hge, if_false]
  constructor
  · intro hneg
    have hge : ¬ (s.mem a).Stock < quantity := by omega
    have hst : ∀ v : Int,
        (({ s with mem := setStock s.mem a v } : SafeInventoryService).mem a).Stock = v := by
      intro v
      simp [setStock]
    have hout : (Reserve s productID quantity).1 = Outcome.success := by rw [hstep hge]
    have hstock : ((Reserve s productID quantity).2.mem a).Stock =
        subInt (s.mem a).Stock quantity := by
      rw [hstep hge]
      exact hst _
    refine ⟨hout, ?_, ?_⟩
    · intro hfit
      have hsub : subInt (s.mem a).Stock quantity = (s.mem a).Stock - quantity :=
        subInt_eq_sub (by omega) hfit
      rw [hstock, hsub]
      exact ⟨rfl, by omega⟩
    · intro hover
      have hsub : subInt (s.mem a).Stock quantity =
          (s.mem a).Stock - quantity - 18446744073709551616 := by
        unfold subInt wrapInt
        unfold maxInt at hmax hover
        unfold minInt at hq
        omega
      rw [hstock, hsub]
      unfold maxInt at hmax
      unfold minInt at hq
      exact ⟨rfl, by omega⟩
  · intro hzero
    subst hzero
    have hge : ¬ (s.mem a).Stock < 0 := by omega
    rw [hstep hge]
    have hsub : subInt (s.mem a).Stock 0 = (s.mem a).Stock := by
      rw [subInt_eq_sub h0 (by omega)]
      omega
    rw [hsub, setStock_self]

/-- Witness for C14 (amended) on the state with A = 10 and B = 5: `Reserve("A", -4)` succeeds
and raises A to 14, and `Reserve("A", 0)` succeeds and changes nothing. -/
theorem Reserve_nonpositive_quantity_witness :
    (Reserve atomicityService "A" (-4)).1 = Outcome.success ∧
      ((Reserve atomicityService "A" (-4)).2.mem 0).Stock = 14 ∧
      Reserve atomicityService "A" 0 = (Outcome.success, atomicityService) :=
  have h4 := (Reserve_nonpositive_quantity atomicityService "A" 0 (-4) (by decide) (by decide)
    (by decide) (by decide)).1 (by decide)
  ⟨h4.1, (h4.2.1 (by decide)).1,
    (Reserve_nonpositive_quantity atomicityService "A" 0 0 (by decide) (by decide)
      (by decide) (by decide)).2 rfl⟩

/-- C16 (counterexample). Single-item `Reserve` can leave a negative stock: with stock
`maxInt`, which is at least 0, and quantity -1, the call succeeds and the stock after it is
`minInt`, below 0. -/
theorem Reserve_negative_stock_by_wrap :
    lookup (singleService maxInt).products "prod-1" = some (some 0) ∧
      0 ≤ ((singleService maxInt).mem 0).Stock ∧
      ((Reserve (singleService maxInt) "prod-1" (-1)).2.mem 0).Stock < 0 ∧
      ¬ (0 ≤ ((Reserve (singleService maxInt) "prod-1" (-1)).2.mem 0).Stock) := by
  decide

/-- C16 (amended). Single-item `Reserve` on its own never oversells as long as the subtraction
does not overflow: when the key holds a record with stock at least 0, then for every integer
quantity, positive, zero or negative, for which the difference of stock and quantity does not
exceed `maxInt` (as it never does for a quantity at least 0 and an `int` stock), the stock of
that record after the call is at least 0, whether the call succeeds or fails.  When the
difference does exceed `maxInt` (for `int` values), the call succeeds and the stock after it is
below 0. -/
theorem Reserve_nonneg_of_fits (s : SafeInventoryService) (productID : String) (a : Nat)
    (quantity : Int) (hp : lookup s.products productID = some (some a))
    (h0 : 0 ≤ (s.mem a).Stock) :
    ((s.mem a).Stock - quantity ≤ maxInt →
        0 ≤ ((Reserve s productID quantity).2.mem a).Stock) ∧
      (0 ≤ quantity → (s.mem a).Stock ≤ maxInt →
        0 ≤ ((Reserve s productID quantity).2.mem a).Stock) ∧
      (maxInt < (s.mem a).Stock - quantity → (s.mem a).Stock ≤ maxInt → minInt ≤ quantity →
        (Reserve s productID quantity).1 = Outcome.success ∧
          ((Reserve s productID quantity).2.mem a).Stock < 0) ∧
      ((Reserve s productID quantity).1 = Outcome.success ∨
        (Reserve s productID quantity).1 = Outcome.ErrInsufficientStock) := by
  have hfail : (s.mem a).Stock < quantity →
      Reserve s productID quantity = (Outcome.ErrInsufficientStock, s) := by
    intro hlt
    unfold Reserve
    rw [hp]
    simp only [hlt, if_true]
  have hok : ¬ (s.mem a).Stock < quantity →
      (Reserve s productID quantity).1 = Outcome.success ∧
        ((Reserve s productID quantity).2.mem a).Stock = subInt (s.mem a).Stock quantity := by
    intro hge
    have hstep : Reserve s productID quantity =
        (Outcome.success,
          { s with mem := setStock s.mem a (subInt (s.mem a).Stock quantity) }) := by
      unfold Reserve
      rw [hp]
      simp only [hge, if_false]
    rw [hstep]
    refine ⟨rfl, ?_⟩
    show (setStock s.mem a (subInt (s.mem a).Stock quantity) a).Stock = _
    simp [setStock]
  have hfit : (s.mem a).Stock - quantity ≤ maxInt →
      0 ≤ ((Reserve s productID quantity).2.mem a).Stock := by
    intro hle
    by_cases hlt : (s.mem a).Stock < quantity
    · rw [hfail hlt]
      exact h0
    · rw [(hok hlt).2, subInt_eq_sub (not_lt.mp hlt) hle]
      omega
  refine ⟨hfit, ?_, ?_, ?_⟩
  · intro hq hmax
    exact hfit (by omega)
  · intro hover hmax hmin
    have hge : ¬ (s.mem a).Stock < quantity := by
      unfold maxInt at hover hmax
      omega
    refine ⟨(hok hge).1, ?_⟩
    rw [(hok hge).2]
    unfold subInt wrapInt
    unfold maxInt at hover hmax
    unfold minInt at hmin
    omega
  · by_cases hlt : (s.mem a).Stock < quantity
    · exact Or.inr (by rw [hfail hlt])
    · exact Or.inl (hok hlt).1

/-- Witness for C16 (amended) on the state with A = 10 and B = 5: `Reserve("A", 8)` leaves A at
2, `Reserve("A", 11)` fails and leaves A at 10, and `Reserve("A", -4)` leaves A at 14; all are
at least 0. -/
theorem Reserve_nonneg_of_fits_witness :
    ((Reserve atomicityService "A" 8).2.mem 0).Stock = 2 ∧
      0 ≤ ((Reserve atomicityService "A" 8).2.mem 0).Stock ∧
      (Reserve atomicityService "A" 11).1 = Outcome.ErrInsufficientStock ∧
      0 ≤ ((Reserve atomicityService "A" 11).2.mem 0).Stock ∧
      0 ≤ ((Reserve atomicityService "A" (-4)).2.mem 0).Stock :=
  ⟨by decide,
    (Reserve_nonneg_of_fits atomicityService "A" 0 8 (by decide) (by decide)).1 (by decide),
    by decide,
    (Reserve_nonneg_of_fits atomicityService "A" 0 11 (by decide) (by decide)).1 (by decide),
    (Reserve_nonneg_of_fits atomicityService "A" 0 (-4) (by decide) (by decide)).1
      (by decide)⟩

/-! ### Exact effect of the apply loop -/

theorem reservedFrom_cons (s : SafeInventoryService) (hd : ReserveItem)
    (tl : List ReserveItem) (a : Nat) :
    reservedFrom s (hd :: tl) a =
      (if index s.products hd.ProductID = some a then hd.Quantity else 0) +
        reservedFrom s tl a := by
  unfold reservedFrom
  by_cases h : index s.products hd.ProductID = some a
  · simp [List.filter_cons, h]
  · simp [List.filter_cons, h]

theorem reservedFrom_setStock (s : SafeInventoryService) (b : Nat) (v : Int)
    (items : List ReserveItem) (a : Nat) :
    reservedFrom { s with mem := setStock s.mem b v } items a = reservedFrom s items a := rfl

theorem reservedFrom_eq_zero (s : SafeInventoryService) (items : List ReserveItem) (a : Nat)
    (h : a ∉ namedRecords s items) : reservedFrom s items a = 0 := by
  induction items with
  | nil => rfl
  | cons hd tl ih =>
    rw [namedRecords_cons] at h
    rw [reservedFrom_cons]
    cases hx : index s.products hd.ProductID with
    | none =>
      rw [hx] at h
      simp [ih h]
    | some b =>
      rw [hx] at h
      simp only [List.mem_cons, not_or] at h
      have hne : ¬ (some b = some a) := by
        intro hba
        exact h.1 (Option.some.inj hba).symm
      simp [hne, ih h.2]

/-- The record at any address after the apply loop, when every item refers to some record:
untouched when no item refers to it, and otherwise with its stock reduced, in wrapping
arithmetic, by the sum of the quantities of the items that refer to it. -/
theorem reserveAll_mem_eq (items : List ReserveItem) (s : SafeInventoryService)
    (hall : ∀ it ∈ items, ∃ b, index s.products it.ProductID = some b) (a : Nat) :
    (reserveAll s items).2.mem a =
      if a ∈ namedRecords s items then
        { s.mem a with Stock := wrapInt ((s.mem a).Stock - reservedFrom s items a) }
      else s.mem a := by
  induction items generalizing s with
  | nil => simp [reserveAll, namedRecords]
  | cons hd tl ih =>
    obtain ⟨b, hx⟩ := hall hd (List.mem_cons_self _ _)
    have hstep : reserveAll s (hd :: tl) =
        reserveAll { s with mem := setStock s.mem b (subInt (s.mem b).Stock hd.Quantity) }
          tl := by
      conv_lhs => unfold reserveAll
      rw [hx]
    rw [hstep,
      ih { s with mem := setStock s.mem b (subInt (s.mem b).Stock hd.Quantity) }
        (fun it hit => hall it (List.mem_cons_of_mem _ hit)),
      namedRecords_setStock, reservedFrom_setStock, namedRecords_cons, hx, reservedFrom_cons,
      hx]
    by_cases hba : b = a
    · subst hba
      by_cases hin : b ∈ namedRecords s tl
      · simp only [hin, if_true, List.mem_cons, true_or]
        simp only [setStock, if_true, subInt]
        rw [wrapInt_wrapInt_sub]
        congr 2
        omega
      · simp only [hin, if_false, List.mem_cons, true_or, if_true]
        rw [reservedFrom_eq_zero s tl b hin]
        simp only [setStock, if_true, subInt]
        congr 2
        omega
    · have hab : a ≠ b := Ne.symm hba
      have hne : ¬ (some b = some a) := fun h => hba (Option.some.inj h)
      simp only [List.mem_cons, hab, false_or, hne, if_false, zero_add]
      simp [setStock, hab]

/-- C15 (counterexample). The stock after a successful `ReserveMultiple` is not always the
stock before minus the sum of the quantities: with stock `maxInt` and three items of quantity
`maxInt` for that product, every item passes validation, the call succeeds, the sum of the
quantities is `3 * maxInt`, and the stock ends at 2, not at `maxInt - 3 * maxInt`. -/
theorem ReserveMultiple_sum_wraps :
    (ReserveMultiple (singleService maxInt)
        [⟨"prod-1", maxInt⟩, ⟨"prod-1", maxInt⟩, ⟨"prod-1", maxInt⟩]).1 = Outcome.success ∧
      reservedFrom (singleService maxInt)
        [⟨"prod-1", maxInt⟩, ⟨"prod-1", maxInt⟩, ⟨"prod-1", maxInt⟩] 0 = 3 * maxInt ∧
      ((ReserveMultiple (singleService maxInt)
        [⟨"prod-1", maxInt⟩, ⟨"prod-1", maxInt⟩, ⟨"prod-1", maxInt⟩]).2.mem 0).Stock = 2 ∧
      ((ReserveMultiple (singleService maxInt)
        [⟨"prod-1", maxInt⟩, ⟨"prod-1", maxInt⟩, ⟨"prod-1", maxInt⟩]).2.mem 0).Stock ≠
        ((singleService maxInt).mem 0).Stock -
          reservedFrom (singleService maxInt)
            [⟨"prod-1", maxInt⟩, ⟨"prod-1", maxInt⟩, ⟨"prod-1", maxInt⟩] 0 := by
  decide

/-- C15 (amended). Exact postcondition of a successful `ReserveMultiple`, duplicates included:
the stock of each record after the call is its stock before the call minus the sum of the
quantities of all items of the list that refer to that record, reduced into the `int` range by
64-bit wrap-around; whenever that difference lies in the `int` range, it is the stock exactly.
A record no item refers to is unchanged (its sum is 0); a record referred to by `k` items loses
the sum of the `k` quantities. -/
theorem ReserveMultiple_postcondition (s : SafeInventoryService) (items : List ReserveItem)
    (hs : (ReserveMultiple s items).1 = Outcome.success) (a : Nat) :
    (a ∈ namedRecords s items →
        ((ReserveMultiple s items).2.mem a).Stock =
          wrapInt ((s.mem a).Stock - reservedFrom s items a)) ∧
      (a ∉ namedRecords s items →
        (ReserveMultiple s items).2.mem a = s.mem a ∧ reservedFrom s items a = 0) ∧
      (minInt ≤ (s.mem a).Stock - reservedFrom s items a →
        (s.mem a).Stock - reservedFrom s items a ≤ maxInt →
        ((ReserveMultiple s items).2.mem a).Stock =
          (s.mem a).Stock - reservedFrom s items a) := by
  have hv : validateAll s items = none := validateAll_eq_none_of_success hs
  have hall : ∀ it ∈ items, ∃ b, index s.products it.ProductID = some b := by
    intro it hit
    obtain ⟨b, hb, _⟩ := (validateAll_eq_none_iff s items).mp hv it hit
    exact ⟨b, index_eq_some.mpr hb⟩
  rw [ReserveMultiple_eq_reserveAll hv, reserveAll_mem_eq items s hall a]
  by_cases hin : a ∈ namedRecords s items
  · simp only [hin, if_true, not_true_eq_false, false_implies, true_implies, true_and]
    intro h1 h2
    exact wrapInt_eq_self h1 h2
  · have hz := reservedFrom_eq_zero s items a hin
    simp only [hin, if_false, false_implies, not_false_eq_true, true_implies, true_and, hz,
      sub_zero, and_self, implies_true]

/-- Witness for C15 (amended) on the state with A = 10 and B = 5: the request `[A:3, A:3, B:1]` succeeds
and leaves A at 10 - (3 + 3) = 4 and B at 4. -/
theorem ReserveMultiple_postcondition_witness :
    (ReserveMultiple atomicityService [⟨"A", 3⟩, ⟨"A", 3⟩, ⟨"B", 1⟩]).1 = Outcome.success ∧
      reservedFrom atomicityService [⟨"A", 3⟩, ⟨"A", 3⟩, ⟨"B", 1⟩] 0 = 6 ∧
      ((ReserveMultiple atomicityService [⟨"A", 3⟩, ⟨"A", 3⟩, ⟨"B", 1⟩]).2.mem 0).Stock = 4 ∧
      ((ReserveMultiple atomicityService [⟨"A", 3⟩, ⟨"A", 3⟩, ⟨"B", 1⟩]).2.mem 1).Stock = 4 :=
  ⟨by decide, by decide,
    (ReserveMultiple_postcondition atomicityService [⟨"A", 3⟩, ⟨"A", 3⟩, ⟨"B", 1⟩] (by decide)
      0).2.2 (by decide) (by decide),
    (ReserveMultiple_postcondition atomicityService [⟨"A", 3⟩, ⟨"A", 3⟩, ⟨"B", 1⟩] (by decide)
      1).2.2 (by decide) (by decide)⟩

/-! ### Multi-item reservation against item-by-item reservation -/

theorem performAll_cons (s : SafeInventoryService) (c : Call) (cs : List Call) :
    performAll s (c :: cs) =
      ((perform s c).1 :: (performAll (perform s c).2 cs).1,
        (performAll (perform s c).2 cs).2) := rfl

/-- A `Reserve` on an item that passes its check succeeds and writes the reduced stock. -/
theorem Reserve_of_pass {s : SafeInventoryService} {productID : String} {quantity : Int}
    {a : Nat} (hp : lookup s.products productID = some (some a))
    (hq : quantity ≤ (s.mem a).Stock) :
    Reserve s productID quantity =
      (Outcome.success,
        { s with mem := setStock s.mem a (subInt (s.mem a).Stock quantity) }) := by
  unfold Reserve
  rw [hp]
  simp only [not_lt.mpr hq, if_false]

/-- A `Reserve` that succeeds was made on an item that passes its check. -/
theorem pass_of_Reserve_success {s : SafeInventoryService} {productID : String}
    {quantity : Int} (h : (Reserve s productID quantity).1 = Outcome.success) :
    ∃ a, lookup s.products productID = some (some a) ∧ quantity ≤ (s.mem a).Stock := by
  unfold Reserve at h
  cases hl : lookup s.products productID with
  | none => rw [hl] at h; simp at h
  | some v =>
    cases v with
    | none => rw [hl] at h; simp at h
    | some a =>
      rw [hl] at h
      by_cases hlt : (s.mem a).Stock < quantity
      · simp [hlt] at h
      · exact ⟨a, rfl, not_lt.mp hlt⟩

/-- Writing to a record leaves the check of every item that refers to another record as it
was. -/
theorem PassesCheck_setStock_iff (s : SafeInventoryService) (a : Nat) (v : Int)
    (item : ReserveItem) (h : index s.products item.ProductID ≠ some a) :
    PassesCheck { s with mem := setStock s.mem a v } item ↔ PassesCheck s item := by
  unfold PassesCheck
  constructor
  · rintro ⟨c, hc, hq⟩
    have hca : c ≠ a := by
      intro hca
      apply h
      rw [index_eq_some.mpr hc, hca]
    refine ⟨c, hc, ?_⟩
    have hmem : ({ s with mem := setStock s.mem a v } : SafeInventoryService).mem c =
        s.mem c := by
      simp [setStock, hca]
    rw [hmem] at hq
    exact hq
  · rintro ⟨c, hc, hq⟩
    have hca : c ≠ a := by
      intro hca
      apply h
      rw [index_eq_some.mpr hc, hca]
    refine ⟨c, hc, ?_⟩
    have hmem : ({ s with mem := setStock s.mem a v } : SafeInventoryService).mem c =
        s.mem c := by
      simp [setStock, hca]
    rw [hmem]
    exact hq

theorem index_ne_of_not_named {s : SafeInventoryService} {tl : List ReserveItem} {a : Nat}
    (h : a ∉ namedRecords s tl) {it : ReserveItem} (hit : it ∈ tl) :
    index s.products it.ProductID ≠ some a := by
  intro hx
  apply h
  unfold namedRecords
  rw [List.mem_filterMap]
  exact ⟨it, hit, hx⟩

/-- When the items refer to pairwise distinct records and all pass their check on entry, the
item-by-item reservations all succeed and end in the state the apply loop produces. -/
theorem performAll_reserveEach_of_pass (items : List ReserveItem) (s : SafeInventoryService)
    (hnd : (namedRecords s items).Nodup) (hpass : ∀ it ∈ items, PassesCheck s it) :
    performAll s (reserveEach items) =
      (items.map (fun _ => Reply.outcome Outcome.success), (reserveAll s items).2) := by
  induction items generalizing s with
  | nil => rfl
  | cons hd tl ih =>
    obtain ⟨a, ha, hq⟩ := hpass hd (List.mem_cons_self _ _)
    have hx : index s.products hd.ProductID = some a := index_eq_some.mpr ha
    rw [namedRecords_cons, hx] at hnd
    obtain ⟨hnot, hnd2⟩ := List.nodup_cons.mp hnd
    have hcalls : reserveEach (hd :: tl) =
        Call.reserve hd.ProductID hd.Quantity :: reserveEach tl := rfl
    have hstep : reserveAll s (hd :: tl) =
        reserveAll { s with mem := setStock s.mem a (subInt (s.mem a).Stock hd.Quantity) }
          tl := by
      conv_lhs => unfold reserveAll
      rw [hx]
    rw [hcalls, performAll_cons, perform_reserve, Reserve_of_pass ha hq, hstep]
    have hpass2 : ∀ it ∈ tl,
        PassesCheck { s with mem := setStock s.mem a (subInt (s.mem a).Stock hd.Quantity) }
          it := by
      intro it hit
      exact (PassesCheck_setStock_iff s a _ it (index_ne_of_not_named hnot hit)).mpr
        (hpass it (List.mem_cons_of_mem _ hit))
    rw [ih { s with mem := setStock s.mem a (subInt (s.mem a).Stock hd.Quantity) }
      (by rw [namedRecords_setStock]; exact hnd2) hpass2]
    rfl

/-- When the items refer to pairwise distinct records and the item-by-item reservations all
succeed, every item passes its check in the state on entry. -/
theorem pass_of_reserveEach_success (items : List ReserveItem) (s : SafeInventoryService)
    (hnd : (namedRecords s items).Nodup)
    (hall : ∀ r ∈ (performAll s (reserveEach items)).1, r = Reply.outcome Outcome.success) :
    ∀ it ∈ items, PassesCheck s it := by
  induction items generalizing s with
  | nil => intro it hit; simp at hit
  | cons hd tl ih =>
    have hcalls : reserveEach (hd :: tl) =
        Call.reserve hd.ProductID hd.Quantity :: reserveEach tl := rfl
    rw [hcalls, performAll_cons, perform_reserve] at hall
    have hhd : (Reserve s hd.ProductID hd.Quantity).1 = Outcome.success := by
      have := hall _ (List.mem_cons_self _ _)
      simpa using this
    obtain ⟨a, ha, hq⟩ := pass_of_Reserve_success hhd
    have hx : index s.products hd.ProductID = some a := index_eq_some.mpr ha
    rw [namedRecords_cons, hx] at hnd
    obtain ⟨hnot, hnd2⟩ := List.nodup_cons.mp hnd
    rw [Reserve_of_pass ha hq] at hall
    have htl := ih { s with mem := setStock s.mem a (subInt (s.mem a).Stock hd.Quantity) }
      (by rw [namedRecords_setStock]; exact hnd2)
      (fun r hr => hall r (List.mem_cons_of_mem _ hr))
    intro it hit
    rcases List.mem_cons.mp hit with h | h
    · rw [h]
      exact ⟨a, ha, hq⟩
    · exact (PassesCheck_setStock_iff s a _ it (index_ne_of_not_named hnot h)).mp (htl it h)

/-- C17 (counterexample). Pairwise distinct keys do not make `ReserveMultiple` agree with
item-by-item `Reserve`: when the keys `A` and `B` hold the same pointer, to a record with stock
10, the request `[A:8, B:8]` has distinct keys and succeeds, leaving -6, while `Reserve("A", 8)`
followed by `Reserve("B", 8)` succeeds once and then returns `ErrInsufficientStock`. -/
theorem ReserveMultiple_shared_record :
    ([⟨"A", 8⟩, ⟨"B", 8⟩] : List ReserveItem).map ReserveItem.ProductID = ["A", "B"] ∧
      (["A", "B"] : List String).Nodup ∧
      (ReserveMultiple sharedRecordService [⟨"A", 8⟩, ⟨"B", 8⟩]).1 = Outcome.success ∧
      (GetStock (ReserveMultiple sharedRecordService [⟨"A", 8⟩, ⟨"B", 8⟩]).2 "A").1 = -6 ∧
      (performAll sharedRecordService (reserveEach [⟨"A", 8⟩, ⟨"B", 8⟩])).1 =
        [Reply.outcome Outcome.success, Reply.outcome Outcome.ErrInsufficientStock] ∧
      ¬ (∀ r ∈ (performAll sharedRecordService (reserveEach [⟨"A", 8⟩, ⟨"B", 8⟩])).1,
        r = Reply.outcome Outcome.success) := by
  decide

/-- C17 (amended). `ReserveMultiple` refines item-by-item `Reserve` on requests whose items
refer to pairwise distinct records: for such a list, `ReserveMultiple` succeeds exactly when the
calls `Reserve(id, q)`, made for each item in list order, all succeed, and in that case the two
resulting states are equal.  For a single item, `ReserveMultiple([(id, q)])` returns the same
result and state as `Reserve(id, q)` in every state. -/
theorem ReserveMultiple_refines_Reserve (s : SafeInventoryService) (items : List ReserveItem)
    (hnd : (namedRecords s items).Nodup) :
    ((ReserveMultiple s items).1 = Outcome.success ↔
        ∀ r ∈ (performAll s (reserveEach items)).1, r = Reply.outcome Outcome.success) ∧
      ((ReserveMultiple s items).1 = Outcome.success →
        (performAll s (reserveEach items)).2 = (ReserveMultiple s items).2) ∧
      (∀ (productID : String) (quantity : Int),
        ReserveMultiple s [⟨productID, quantity⟩] = Reserve s productID quantity) := by
  have hfwd : (ReserveMultiple s items).1 = Outcome.success →
      performAll s (reserveEach items) =
        (items.map (fun _ => Reply.outcome Outcome.success), (ReserveMultiple s items).2) := by
    intro hs
    have hv : validateAll s items = none := validateAll_eq_none_of_success hs
    rw [ReserveMultiple_eq_reserveAll hv]
    exact performAll_reserveEach_of_pass items s hnd ((validateAll_eq_none_iff s items).mp hv)
  refine ⟨⟨?_, ?_⟩, ?_, ?_⟩
  · intro hs r hr
    rw [hfwd hs] at hr
    simp only [List.mem_map] at hr
    obtain ⟨_, _, h⟩ := hr
    exact h.symm
  · intro hall
    have hpass := pass_of_reserveEach_success items s hnd hall
    have hv : validateAll s items = none := (validateAll_eq_none_iff s items).mpr hpass
    rw [ReserveMultiple_eq_reserveAll hv]
    apply reserveAll_success
    intro it hit
    obtain ⟨a, ha, _⟩ := hpass it hit
    exact ⟨a, ha⟩
  · intro hs
    rw [hfwd hs]
  · intro productID quantity
    unfold ReserveMultiple Reserve
    cases hl : lookup s.products productID with
    | none => simp [validateAll, hl]
    | some v =>
      cases v with
      | none => simp [validateAll, hl]
      | some a =>
        have hx : index s.products productID = some a := index_eq_some.mpr hl
        by_cases hlt : (s.mem a).Stock < quantity
        · simp [validateAll, hl, hlt]
        · simp [validateAll, hl, hlt, reserveAll, hx]

/-- Witness for C17 (amended) on the state with A = 10 and B = 5: the items of `[A:8, B:5]`
refer to distinct records; `ReserveMultiple` succeeds, so do `Reserve("A", 8)` and then
`Reserve("B", 5)`, and both ways end in the same state. -/
theorem ReserveMultiple_refines_Reserve_witness :
    (namedRecords atomicityService [⟨"A", 8⟩, ⟨"B", 5⟩]).Nodup ∧
      (ReserveMultiple atomicityService [⟨"A", 8⟩, ⟨"B", 5⟩]).1 = Outcome.success ∧
      (performAll atomicityService (reserveEach [⟨"A", 8⟩, ⟨"B", 5⟩])).2 =
        (ReserveMultiple atomicityService [⟨"A", 8⟩, ⟨"B", 5⟩]).2 :=
  ⟨by decide, by decide,
    (ReserveMultiple_refines_Reserve atomicityService [⟨"A", 8⟩, ⟨"B", 5⟩] (by decide)).2.1
      (by decide)⟩

/-! ### Order of the items -/

theorem SafeInventoryService.eq_of_fields {s1 s2 : SafeInventoryService}
    (hp : s1.products = s2.products) (hm : s1.mem = s2.mem) : s1 = s2 := by
  cases s1
  cases s2
  simp only at hp hm
  rw [hp, hm]

theorem namedRecords_perm {s : SafeInventoryService} {l1 l2 : List ReserveItem}
    (h : l1.Perm l2) : (namedRecords s l1).Perm (namedRecords s l2) := by
  unfold namedRecords
  exact h.filterMap _

theorem reservedFrom_perm {s : SafeInventoryService} {l1 l2 : List ReserveItem}
    (h : l1.Perm l2) (a : Nat) : reservedFrom s l1 a = reservedFrom s l2 a := by
  unfold reservedFrom
  exact ((h.filter _).map _).sum_eq

/-- The apply loop ends in the same state on two lists that are permutations of each other,
when every item refers to some record. -/
theorem reserveAll_perm {s : SafeInventoryService} {l1 l2 : List ReserveItem}
    (h : l1.Perm l2) (hall : ∀ it ∈ l1, ∃ b, index s.products it.ProductID = some b) :
    (reserveAll s l2).2 = (reserveAll s l1).2 := by
  have hall2 : ∀ it ∈ l2, ∃ b, index s.products it.ProductID = some b :=
    fun it hit => hall it (h.mem_iff.mpr hit)
  apply SafeInventoryService.eq_of_fields
  · rw [reserveAll_products, reserveAll_products]
  · funext a
    rw [reserveAll_mem_eq l1 s hall a, reserveAll_mem_eq l2 s hall2 a, reservedFrom_perm h a]
    by_cases hin : a ∈ namedRecords s l1
    · have hin2 : a ∈ namedRecords s l2 := (namedRecords_perm h).mem_iff.mp hin
      simp only [hin, hin2, if_true]
    · have hin2 : a ∉ namedRecords s l2 := fun h2 => hin ((namedRecords_perm h).mem_iff.mpr h2)
      simp only [hin, hin2, if_false]

/-- C18. The order of the items does not affect the commit: for two item lists that are
permutations of each other, `ReserveMultiple` succeeds on one exactly when it succeeds on the
other, and when it succeeds the two resulting states are equal. -/
theorem ReserveMultiple_perm (s : SafeInventoryService) (l1 l2 : List ReserveItem)
    (h : l1.Perm l2) :
    ((ReserveMultiple s l1).1 = Outcome.success ↔
        (ReserveMultiple s l2).1 = Outcome.success) ∧
      ((ReserveMultiple s l1).1 = Outcome.success →
        (ReserveMultiple s l2).2 = (ReserveMultiple s l1).2) := by
  have hiff : ∀ l : List ReserveItem,
      (ReserveMultiple s l).1 = Outcome.success ↔ validateAll s l = none := by
    intro l
    constructor
    · exact validateAll_eq_none_of_success
    · intro hv
      rw [ReserveMultiple_eq_reserveAll hv]
      apply reserveAll_success
      intro it hit
      obtain ⟨a, ha, _⟩ := (validateAll_eq_none_iff s l).mp hv it hit
      exact ⟨a, ha⟩
  have hval : validateAll s l1 = none ↔ validateAll s l2 = none := by
    rw [validateAll_eq_none_iff, validateAll_eq_none_iff]
    constructor
    · intro hp it hit
      exact hp it (h.mem_iff.mpr hit)
    · intro hp it hit
      exact hp it (h.mem_iff.mp hit)
  refine ⟨by rw [hiff l1, hiff l2]; exact hval, ?_⟩
  intro hs
  have hv1 : validateAll s l1 = none := (hiff l1).mp hs
  have hv2 : validateAll s l2 = none := hval.mp hv1
  rw [ReserveMultiple_eq_reserveAll hv1, ReserveMultiple_eq_reserveAll hv2]
  apply reserveAll_perm h
  intro it hit
  obtain ⟨a, ha, _⟩ := (validateAll_eq_none_iff s l1).mp hv1 it hit
  exact ⟨a, index_eq_some.mpr ha⟩

/-- Witness for C18 on the state with A = 10 and B = 5: the requests `[A:3, B:1, A:2]` and
`[A:2, A:3, B:1]` are permutations of each other, both succeed, and both end in the same
state. -/
theorem ReserveMultiple_perm_witness :
    ([⟨"A", 3⟩, ⟨"B", 1⟩, ⟨"A", 2⟩] : List ReserveItem).Perm
        [⟨"A", 2⟩, ⟨"A", 3⟩, ⟨"B", 1⟩] ∧
      (ReserveMultiple atomicityService [⟨"A", 3⟩, ⟨"B", 1⟩, ⟨"A", 2⟩]).1 = Outcome.success ∧
      (ReserveMultiple atomicityService [⟨"A", 2⟩, ⟨"A", 3⟩, ⟨"B", 1⟩]).2 =
        (ReserveMultiple atomicityService [⟨"A", 3⟩, ⟨"B", 1⟩, ⟨"A", 2⟩]).2 :=
  have hperm : ([⟨"A", 3⟩, ⟨"B", 1⟩, ⟨"A", 2⟩] : List ReserveItem).Perm
      [⟨"A", 2⟩, ⟨"A", 3⟩, ⟨"B", 1⟩] := by decide
  ⟨hperm, by decide,
    (ReserveMultiple_perm atomicityService _ _ hperm).2 (by decide)⟩

/-! ### The apply loop after validation -/

theorem reserveAll_append_of_success (s : SafeInventoryService) (pre rest : List ReserveItem)
    (h : ∀ it ∈ pre, ∃ a, lookup s.products it.ProductID = some (some a)) :
    reserveAll s (pre ++ rest) = reserveAll (reserveAll s pre).2 rest := by
  induction pre generalizing s with
  | nil => rfl
  | cons hd tl ih =>
    obtain ⟨a, ha⟩ := h hd (List.mem_cons_self _ _)
    have hx : index s.products hd.ProductID = some a := index_eq_some.mpr ha
    have h1 : reserveAll s (hd :: tl ++ rest) =
        reserveAll { s with mem := setStock s.mem a (subInt (s.mem a).Stock hd.Quantity) }
          (tl ++ rest) := by
      rw [List.cons_append]
      conv_lhs => unfold reserveAll
      rw [hx]
    have h2 : reserveAll s (hd :: tl) =
        reserveAll { s with mem := setStock s.mem a (subInt (s.mem a).Stock hd.Quantity) }
          tl := by
      conv_lhs => unfold reserveAll
      rw [hx]
    rw [h1, h2]
    exact ih _ (fun it hit => h it (List.mem_cons_of_mem _ hit))

/-- C19. The apply phase of `ReserveMultiple` cannot fault: whenever the validation loop has
run to its end without returning, the apply loop ends with `return nil`, and at every
iteration, in the state left by the iterations before it (stocks already decremented), the
index expression `s.products[item.ProductID]` yields a non-nil pointer.  This holds in every
state, in particular in those whose entries are all non-nil. -/
theorem reserveAll_never_faults (s : SafeInventoryService) (items : List ReserveItem)
    (hv : validateAll s items = none) :
    (reserveAll s items).1 = Outcome.success ∧
      (ReserveMultiple s items).1 ≠ Outcome.nilDereference ∧
      ∀ (pre post : List ReserveItem) (item : ReserveItem), items = pre ++ item :: post →
        reserveAll s items = reserveAll (reserveAll s pre).2 (item :: post) ∧
          ∃ a, index (reserveAll s pre).2.products item.ProductID = some a := by
  have hpass := (validateAll_eq_none_iff s items).mp hv
  have hfound : ∀ it ∈ items, ∃ a, lookup s.products it.ProductID = some (some a) := by
    intro it hit
    obtain ⟨a, ha, _⟩ := hpass it hit
    exact ⟨a, ha⟩
  have hok : (reserveAll s items).1 = Outcome.success := reserveAll_success items s hfound
  refine ⟨hok, ?_, ?_⟩
  · rw [ReserveMultiple_eq_reserveAll hv, hok]
    decide
  · intro pre post item hsplit
    subst hsplit
    constructor
    · apply reserveAll_append_of_success
      intro it hit
      exact hfound it (List.mem_append_left _ hit)
    · obtain ⟨a, ha⟩ := hfound item (List.mem_append_right _ (List.mem_cons_self _ _))
      exact ⟨a, by rw [reserveAll_products]; exact index_eq_some.mpr ha⟩

/-- Witness for C19 on the state with A = 10 and B = 5: the request `[A:8, A:8, B:5]` passes
validation; the apply loop returns nil, and its third iteration, run after A's stock has been
decremented twice, finds B's record at address 1. -/
theorem reserveAll_never_faults_witness :
    validateAll atomicityService [⟨"A", 8⟩, ⟨"A", 8⟩, ⟨"B", 5⟩] = none ∧
      (reserveAll atomicityService [⟨"A", 8⟩, ⟨"A", 8⟩, ⟨"B", 5⟩]).1 = Outcome.success ∧
      index (reserveAll atomicityService [⟨"A", 8⟩, ⟨"A", 8⟩]).2.products "B" = some 1 :=
  have h := reserveAll_never_faults atomicityService [⟨"A", 8⟩, ⟨"A", 8⟩, ⟨"B", 5⟩]
    (by decide)
  ⟨by decide, h.1, by decide⟩

end Inventory
